import Mathlib

set_option maxRecDepth 8000

/-!
Verification of the FinPilot dashboard's portfolio aggregation, caching and
formatting logic (the React/TypeScript page `BinancePortfolio` and the
`HoldingsTable` component).

Modelling conventions (shallow embedding):
* A JavaScript number is `JSNum`: an exact rational plus the non-finite
  values `NaN`, `Infinity` and `-Infinity`.  Arithmetic on the rational part
  is exact; the IEEE special-value propagation rules are kept.
* Raw API payloads are parsed JSON, so a numeric field of a raw holding
  record is an `Option ℚ` (`none` models an absent field, i.e. JS
  `undefined`; JSON numerals denote finite values).
* JS `Object.entries` is a list of key/value pairs; a JS `Map` and the
  insertion-ordered behaviour of `Set`/`Map.forEach` are association lists.
* React state updates (`setX`) become explicit state passing.  A detail kept
  faithfully: inside `fetchPortfolioData` the identifiers `spotHoldings`,
  `marginHoldings`, `futuresHoldings`, `portfolioData` denote the values
  captured by the closure at render time, not the values just passed to the
  setters.
* Host-locale rendering (`toLocaleTimeString`, `toLocaleDateString` on valid
  dates) is a `String`-valued parameter; everything ECMA-402 pins down
  locale-independently (e.g. "Invalid Date") is modelled concretely.
-/

namespace FinPilot

/-- A JavaScript number: an exact rational, or one of the non-finite values. -/
inductive JSNum where
  | num (q : ℚ)
  | nan
  | inf
  | ninf
deriving DecidableEq

/-- JS `isFinite`. -/
def JSNum.isFinite : JSNum → Bool
  | .num _ => true
  | _ => false

/-- The rational value of a finite JS number (0 for the non-finite values). -/
def qOf : JSNum → ℚ
  | .num q => q
  | _ => 0

/-- JS `Number(x)` applied to a possibly-absent JSON numeric field:
`Number(undefined)` is `NaN`, a JSON numeral denotes itself. -/
def numberOf : Option ℚ → JSNum
  | none => .nan
  | some q => .num q

/-- JS `x || y` on numbers: the falsy numbers are `0` (and `-0`) and `NaN`. -/
def jOr (x y : JSNum) : JSNum :=
  if x = .num 0 ∨ x = .nan then y else x

/-- JS `+` on numbers. -/
def jAdd : JSNum → JSNum → JSNum
  | .num a, .num b => .num (a + b)
  | .nan, _ => .nan
  | _, .nan => .nan
  | .inf, .ninf => .nan
  | .ninf, .inf => .nan
  | .inf, _ => .inf
  | _, .inf => .inf
  | .ninf, _ => .ninf
  | _, .ninf => .ninf

/-- JS `*` on numbers. -/
def jMul : JSNum → JSNum → JSNum
  | .num a, .num b => .num (a * b)
  | .nan, _ => .nan
  | _, .nan => .nan
  | .inf, .inf => .inf
  | .inf, .ninf => .ninf
  | .ninf, .inf => .ninf
  | .ninf, .ninf => .inf
  | .inf, .num b => if b = 0 then .nan else if 0 < b then .inf else .ninf
  | .ninf, .num b => if b = 0 then .nan else if 0 < b then .ninf else .inf
  | .num a, .inf => if a = 0 then .nan else if 0 < a then .inf else .ninf
  | .num a, .ninf => if a = 0 then .nan else if 0 < a then .ninf else .inf

/-- JS `/` on numbers. -/
def jDiv : JSNum → JSNum → JSNum
  | .num a, .num b =>
      if b = 0 then (if a = 0 then .nan else if 0 < a then .inf else .ninf)
      else .num (a / b)
  | .nan, _ => .nan
  | _, .nan => .nan
  | .num _, .inf => .num 0
  | .num _, .ninf => .num 0
  | .inf, .num b => if 0 ≤ b then .inf else .ninf
  | .ninf, .num b => if 0 ≤ b then .ninf else .inf
  | .inf, .inf => .nan
  | .inf, .ninf => .nan
  | .ninf, .inf => .nan
  | .ninf, .ninf => .nan

/-- JS `x > 0` (false for `NaN`). -/
def jGt0 : JSNum → Bool
  | .num q => decide (0 < q)
  | .inf => true
  | _ => false

/-- JS `x < q` for a rational literal `q` (false for `NaN`). -/
def jLtq (x : JSNum) (q : ℚ) : Bool :=
  match x with
  | .num r => decide (r < q)
  | .ninf => true
  | _ => false

end FinPilot

namespace FinPilot

/-- Raw spot holding record (fields of interest of `SpotHoldingData`),
source `part_001` lines 945-959. -/
structure SpotHoldingData where
  total : Option ℚ
  price_usd : Option ℚ
  total_usd : Option ℚ
  change_24h : Option ℚ
  avg_buy_price : Option ℚ
  pnl : Option ℚ
  pnl_percentage : Option ℚ
  first_buy_time : Option ℚ
  last_buy_time : Option ℚ
deriving DecidableEq

/-- Raw margin holding record (`MarginHoldingData`), source lines 961-974. -/
structure MarginHoldingData where
  net_asset : Option ℚ
  net_asset_usd : Option ℚ
  price_usd : Option ℚ
  change_24h : Option ℚ
  avg_buy_price : Option ℚ
  pnl : Option ℚ
  pnl_percentage : Option ℚ
  first_buy_time : Option ℚ
  last_buy_time : Option ℚ
deriving DecidableEq

/-- Raw futures holding record (`FuturesHoldingData`), source lines 976-992. -/
structure FuturesHoldingData where
  amount : Option ℚ
  entry_price : Option ℚ
  current_price : Option ℚ
  unrealized_pnl : Option ℚ
  unrealized_pnl_usd : Option ℚ
  usd_value : Option ℚ
  change_24h : Option ℚ
deriving DecidableEq

/-- A processed holding (`Holding` interface, source lines 909-920). -/
structure Holding where
  symbol : String
  amount : JSNum
  price_usd : JSNum
  total_usd : JSNum
  change_24h : Option JSNum
  avg_buy_price : Option JSNum
  pnl : Option JSNum
  pnl_percentage : Option JSNum
  first_buy_time : Option ℚ
  last_buy_time : Option ℚ
deriving DecidableEq

/-- An allocation entry (`AssetAllocation` interface, source lines 922-927). -/
structure AssetAllocation where
  asset : String
  value : JSNum
  percentage : JSNum
deriving DecidableEq

/-- The aggregated snapshot (`PortfolioData` interface, source lines 929-942).
The allocation lists are optional: the initial and the fallback snapshots
omit them. -/
structure PortfolioData where
  total_value : JSNum
  change_24h : JSNum
  holdings_count : ℕ
  spot_value : JSNum
  margin_value : JSNum
  futures_value : JSNum
  asset_allocation : Option (List AssetAllocation)
  sector_allocation : Option (List AssetAllocation)
  last_updated : String
deriving DecidableEq

/-- The raw API payload (`PortfolioApiData`, source lines 994-1004); each
segment is the entry list of a JSON object keyed by composite strings. -/
structure PortfolioApiData where
  spot_holdings : Option (List (String × SpotHoldingData))
  margin_holdings : Option (List (String × MarginHoldingData))
  futures_holdings : Option (List (String × FuturesHoldingData))
  total_value : Option ℚ
  change_24h : Option ℚ
deriving DecidableEq

/-- Model of `key.split('_')[0]`: the substring of the key before the first
underscore (the whole key when there is none). -/
def keyAssetPart (key : String) : String :=
  (key.toList.takeWhile (· != '_')).asString

/-- JS `s.replace('USDT', '')` on a character list: remove the first
(leftmost) occurrence of `"USDT"`, leaving the rest unchanged. -/
def replaceFirstL : List Char → List Char
  | 'U' :: 'S' :: 'D' :: 'T' :: rest => rest
  | c :: rest => c :: replaceFirstL rest
  | [] => []

/-- Static symbol-to-sector lookup (`mapAssetToSector`, source lines
1153-1198); unmapped symbols fall into "Other". -/
def mapAssetToSector (asset : String) : String :=
  if asset = "BTC" then "Store of Value"
  else if asset = "ETH" then "Smart Contract Platform"
  else if asset = "BNB" then "Exchange Token"
  else if asset = "SOL" then "Smart Contract Platform"
  else if asset = "ADA" then "Smart Contract Platform"
  else if asset = "DOT" then "Interoperability"
  else if asset = "AVAX" then "Smart Contract Platform"
  else if asset = "LINK" then "Oracle"
  else if asset = "UNI" then "DeFi"
  else if asset = "AAVE" then "DeFi"
  else if asset = "COMP" then "DeFi"
  else if asset = "MKR" then "DeFi"
  else if asset = "SUSHI" then "DeFi"
  else if asset = "CAKE" then "DeFi"
  else if asset = "MATIC" then "Layer 2"
  else if asset = "LTC" then "Payments"
  else if asset = "XLM" then "Payments"
  else if asset = "XRP" then "Payments"
  else if asset = "DOGE" then "Meme"
  else if asset = "SHIB" then "Meme"
  else if asset = "FTT" then "Exchange Token"
  else if asset = "CRO" then "Exchange Token"
  else if asset = "FTM" then "Smart Contract Platform"
  else if asset = "ATOM" then "Interoperability"
  else if asset = "ALGO" then "Smart Contract Platform"
  else if asset = "NEAR" then "Smart Contract Platform"
  else if asset = "ICP" then "Internet Services"
  else if asset = "FIL" then "Storage"
  else if asset = "XTZ" then "Smart Contract Platform"
  else if asset = "AXS" then "Gaming"
  else if asset = "MANA" then "Metaverse"
  else if asset = "SAND" then "Metaverse"
  else if asset = "ENJ" then "Gaming"
  else if asset = "THETA" then "Media"
  else if asset = "CHZ" then "Sports"
  else if asset = "BAT" then "Advertising"
  else if asset = "XMR" then "Privacy"
  else if asset = "ZEC" then "Privacy"
  else if asset = "DASH" then "Privacy"
  else "Other"

/-- Accumulator state of `calculateValues` (the mutable locals of source
lines 1224-1232). `uniqueAssets` is an insertion-ordered set, `assetValues`
an insertion-ordered map. -/
structure AggState where
  totalSpotValue : JSNum
  totalMarginValue : JSNum
  totalFuturesValue : JSNum
  uniqueAssets : List String
  assetValues : List (String × JSNum)
  totalWeightedChange : JSNum
  totalValueWithChange : JSNum
deriving DecidableEq

/-- JS `Set.add`. -/
def setAdd (s : List String) (x : String) : List String :=
  if x ∈ s then s else s ++ [x]

/-- JS `Map.get` (`undefined` for a missing key). -/
def mapGet (m : List (String × JSNum)) (k : String) : Option JSNum :=
  (m.find? (fun p => p.1 == k)).map (·.2)

/-- JS `Map.set`: overwrite in place, else append (insertion order kept). -/
def mapSet (m : List (String × JSNum)) (k : String) (v : JSNum) :
    List (String × JSNum) :=
  match m with
  | [] => [(k, v)]
  | p :: rest => if p.1 = k then (k, v) :: rest else p :: mapSet rest k v

/-- Model of `assetValues.get(symbol) || 0` (source lines 1261, 1310, 1360, 1414). -/
def getOrZero (m : List (String × JSNum)) (k : String) : JSNum :=
  match mapGet m k with
  | some v => jOr v (.num 0)
  | none => .num 0

/-- The inclusion guard
`amount > 0 && isFinite(amount) && isFinite(price_usd) && total_usd > 0`
(source lines 1256, 1305, 1355). -/
def includedHolding (h : Holding) : Bool :=
  jGt0 h.amount && h.amount.isFinite && h.price_usd.isFinite && jGt0 h.total_usd

/-- Which segment a record belongs to. -/
inductive Segment where
  | spot
  | margin
  | futures
deriving DecidableEq

/-- The accumulator updates of an accepted record (source lines 1257-1267,
1306-1317, 1356-1367): add `total_usd` to the segment total, record the
symbol, accumulate the asset value map and, when the record carries a
finite `change_24h`, the weighted-change sums. -/
def stepState (seg : Segment) (h : Holding) (st : AggState) : AggState :=
  { st with
      totalSpotValue :=
        if seg = .spot then jAdd st.totalSpotValue h.total_usd else st.totalSpotValue
      totalMarginValue :=
        if seg = .margin then jAdd st.totalMarginValue h.total_usd else st.totalMarginValue
      totalFuturesValue :=
        if seg = .futures then jAdd st.totalFuturesValue h.total_usd else st.totalFuturesValue
      uniqueAssets := setAdd st.uniqueAssets h.symbol
      assetValues :=
        mapSet st.assetValues h.symbol (jAdd (getOrZero st.assetValues h.symbol) h.total_usd)
      totalWeightedChange :=
        match h.change_24h with
        | some c => if c.isFinite then jAdd st.totalWeightedChange (jMul c h.total_usd)
                    else st.totalWeightedChange
        | none => st.totalWeightedChange
      totalValueWithChange :=
        match h.change_24h with
        | some c => if c.isFinite then jAdd st.totalValueWithChange h.total_usd
                    else st.totalValueWithChange
        | none => st.totalValueWithChange }

/-- The shared body of the three per-record blocks of `calculateValues`
(source lines 1256-1281, 1305-1330, 1355-1378): when the guard passes, run
the accumulator updates and push the processed holding; otherwise the
record is dropped. -/
def includeRecord (seg : Segment) (h : Holding) (acc : AggState × List Holding) :
    AggState × List Holding :=
  if includedHolding h then (stepState seg h acc.1, acc.2 ++ [h])
  else acc

/-- The candidate holding built from a raw spot entry (source lines
1246-1281): symbol is the key before the first `_`; `amount`, `price_usd`
are `Number(..) || 0`; `total_usd` is `Number(..) || amount * price_usd`. -/
def spotCandidate (kv : String × SpotHoldingData) : Holding :=
  let symbol := keyAssetPart kv.1
  let spotHolding := kv.2
  let amount := jOr (numberOf spotHolding.total) (.num 0)
  let price_usd := jOr (numberOf spotHolding.price_usd) (.num 0)
  let total_usd := jOr (numberOf spotHolding.total_usd) (jMul amount price_usd)
  { symbol := symbol
    amount := amount
    price_usd := price_usd
    total_usd := total_usd
    change_24h := spotHolding.change_24h.map JSNum.num
    avg_buy_price := spotHolding.avg_buy_price.map JSNum.num
    pnl := spotHolding.pnl.map JSNum.num
    pnl_percentage := spotHolding.pnl_percentage.map JSNum.num
    first_buy_time := spotHolding.first_buy_time
    last_buy_time := spotHolding.last_buy_time }

/-- The candidate holding built from a raw margin entry (source lines
1296-1330). -/
def marginCandidate (kv : String × MarginHoldingData) : Holding :=
  let symbol := keyAssetPart kv.1
  let marginHolding := kv.2
  let amount := jOr (numberOf marginHolding.net_asset) (.num 0)
  let price_usd := jOr (numberOf marginHolding.price_usd) (.num 0)
  let total_usd := jOr (numberOf marginHolding.net_asset_usd) (jMul amount price_usd)
  { symbol := symbol
    amount := amount
    price_usd := price_usd
    total_usd := total_usd
    change_24h := marginHolding.change_24h.map JSNum.num
    avg_buy_price := marginHolding.avg_buy_price.map JSNum.num
    pnl := marginHolding.pnl.map JSNum.num
    pnl_percentage := marginHolding.pnl_percentage.map JSNum.num
    first_buy_time := marginHolding.first_buy_time
    last_buy_time := marginHolding.last_buy_time }

/-- The candidate holding built from a raw futures entry (source lines
1344-1378): the symbol additionally has the first `"USDT"` occurrence
removed (`fullSymbol.replace('USDT', '')`), `entry_price` is reused as
`avg_buy_price`, `unrealized_pnl` as `pnl`, and `pnl_percentage` is
`unrealized_pnl_usd / total_usd * 100`. -/
def futuresCandidate (kv : String × FuturesHoldingData) : Holding :=
  let fullSymbol := keyAssetPart kv.1
  let symbol := (replaceFirstL fullSymbol.toList).asString
  let futuresHolding := kv.2
  let amount := jOr (numberOf futuresHolding.amount) (.num 0)
  let price_usd := jOr (numberOf futuresHolding.current_price) (.num 0)
  let total_usd := jOr (numberOf futuresHolding.usd_value) (jMul amount price_usd)
  { symbol := symbol
    amount := amount
    price_usd := price_usd
    total_usd := total_usd
    change_24h := futuresHolding.change_24h.map JSNum.num
    avg_buy_price := futuresHolding.entry_price.map JSNum.num
    pnl := futuresHolding.unrealized_pnl.map JSNum.num
    pnl_percentage :=
      some (jMul (jDiv (numberOf futuresHolding.unrealized_pnl_usd) total_usd) (.num 100))
    first_buy_time := none
    last_buy_time := none }

/-- Processing of one spot entry (source lines 1244-1284). -/
def spotStep (acc : AggState × List Holding) (kv : String × SpotHoldingData) :
    AggState × List Holding :=
  includeRecord .spot (spotCandidate kv) acc

/-- Processing of one margin entry (source lines 1293-1333). -/
def marginStep (acc : AggState × List Holding) (kv : String × MarginHoldingData) :
    AggState × List Holding :=
  includeRecord .margin (marginCandidate kv) acc

/-- Processing of one futures entry (source lines 1342-1381). -/
def futuresStep (acc : AggState × List Holding) (kv : String × FuturesHoldingData) :
    AggState × List Holding :=
  includeRecord .futures (futuresCandidate kv) acc

/-- All accumulators start at zero / empty (source lines 1224-1232). -/
def initialAggState : AggState :=
  { totalSpotValue := .num 0
    totalMarginValue := .num 0
    totalFuturesValue := .num 0
    uniqueAssets := []
    assetValues := []
    totalWeightedChange := .num 0
    totalValueWithChange := .num 0 }

/-- JS `arr.sort((a, b) => b.value - a.value)` on allocation entries: a
stable sort, descending by value (source lines 1406, 1435). -/
def sortByValueDesc (l : List AssetAllocation) : List AssetAllocation :=
  l.mergeSort (fun a b => decide (qOf b.value ≤ qOf a.value))

/-- Building allocation entries from a value map (source lines 1391-1403 for
assets and 1421-1432 for sectors): only when the total is positive, and only
for positive values; `percentage = (value / total) * 100`. -/
def buildAllocationEntries (values : List (String × JSNum)) (total : JSNum) :
    List AssetAllocation :=
  if jGt0 total then
    (values.filter (fun p => jGt0 p.2)).map
      (fun p => { asset := p.1, value := p.2, percentage := jMul (jDiv p.2 total) (.num 100) })
  else []

/-- Grouping the asset value map by sector (source lines 1409-1418). -/
def sectorFold (values : List (String × JSNum)) (total : JSNum) :
    List (String × JSNum) :=
  if jGt0 total then
    values.foldl
      (fun m p =>
        if jGt0 p.2 then
          mapSet m (mapAssetToSector p.1) (jAdd (getOrZero m (mapAssetToSector p.1)) p.2)
        else m)
      []
  else []

/-- The record returned by `calculateValues` (source lines 1443-1455). -/
structure CalcResult where
  totalValue : JSNum
  spotValue : JSNum
  marginValue : JSNum
  futuresValue : JSNum
  uniqueAssetCount : ℕ
  assetAllocation : List AssetAllocation
  sectorAllocation : List AssetAllocation
  spotCoinsCount : ℕ
  marginCoinsCount : ℕ
  futuresCoinsCount : ℕ
  averageChange : JSNum
deriving DecidableEq

/-- The three sequential per-segment loops of `calculateValues` (source
lines 1239-1383): one shared accumulator state threaded through spot, then
margin, then futures entries, and the three processed holdings lists. -/
def aggregateAll (data : PortfolioApiData) :
    AggState × (List Holding × List Holding × List Holding) :=
  let spotRes := (data.spot_holdings.getD []).foldl spotStep (initialAggState, [])
  let marginRes := (data.margin_holdings.getD []).foldl marginStep (spotRes.1, [])
  let futuresRes := (data.futures_holdings.getD []).foldl futuresStep (marginRes.1, [])
  (futuresRes.1, (spotRes.2, marginRes.2, futuresRes.2))

/-- Model of `calculateValues` (source lines 1223-1456).  Returns the calculation
record together with the three processed holdings lists that the source
installs via `setSpotHoldings` / `setMarginHoldings` / `setFuturesHoldings`
(source lines 1438-1440). -/
def calculateValues (data : PortfolioApiData) :
    CalcResult × (List Holding × List Holding × List Holding) :=
  let spotEntries := data.spot_holdings.getD []
  let marginEntries := data.margin_holdings.getD []
  let futuresEntries := data.futures_holdings.getD []
  let agg := aggregateAll data
  let st := agg.1
  let averageChange :=
    if jGt0 st.totalValueWithChange then jDiv st.totalWeightedChange st.totalValueWithChange
    else .num 0
  let calculatedTotalValue :=
    jAdd (jAdd st.totalSpotValue st.totalMarginValue) st.totalFuturesValue
  let generatedAssetAllocation :=
    sortByValueDesc (buildAllocationEntries st.assetValues calculatedTotalValue)
  let generatedSectorAllocation :=
    sortByValueDesc
      (buildAllocationEntries (sectorFold st.assetValues calculatedTotalValue)
        calculatedTotalValue)
  ({ totalValue := calculatedTotalValue
     spotValue := st.totalSpotValue
     marginValue := st.totalMarginValue
     futuresValue := st.totalFuturesValue
     uniqueAssetCount := st.uniqueAssets.length
     assetAllocation := generatedAssetAllocation
     sectorAllocation := generatedSectorAllocation
     spotCoinsCount := spotEntries.length
     marginCoinsCount := marginEntries.length
     futuresCoinsCount := futuresEntries.length
     averageChange := averageChange },
   agg.2)

/-- The `validatedData` object (source lines 1465-1480).  Note that
`calculatedValues.averageChange !== undefined` is always true (the field is
always a number), so only the `isFinite` test is left of that conjunct. -/
def validatedData (now : String) (data : PortfolioApiData) (cv : CalcResult) :
    PortfolioData :=
  { total_value := if jGt0 cv.totalValue then cv.totalValue else .num 0
    change_24h :=
      if cv.averageChange.isFinite then cv.averageChange
      else if (numberOf data.change_24h).isFinite then numberOf data.change_24h
      else .num 0
    holdings_count :=
      if 0 < cv.uniqueAssetCount then cv.uniqueAssetCount
      else (data.spot_holdings.getD []).length + (data.margin_holdings.getD []).length +
        (data.futures_holdings.getD []).length
    spot_value := if jGt0 cv.spotValue then cv.spotValue else .num 0
    margin_value := if jGt0 cv.marginValue then cv.marginValue else .num 0
    futures_value := if jGt0 cv.futuresValue then cv.futuresValue else .num 0
    asset_allocation := some cv.assetAllocation
    sector_allocation := some cv.sectorAllocation
    last_updated := now }

/-! ### Formatters (`HoldingsTable`, source `part_000` lines 21-63)

`Intl.NumberFormat('en-US', ...)` with equal minimum and maximum fraction
digits rounds half away from zero (ECMA-402 `halfExpand`), renders exactly
that many fraction digits, and groups the integer part with commas every
three digits. -/

/-- Exactly `d` decimal digits of `n` (most significant first, with leading
zeros), i.e. the fraction part of a fixed-point rendering. -/
def padDigits : ℕ → ℕ → List Char
  | _, 0 => []
  | n, d + 1 => padDigits (n / 10) d ++ [Nat.digitChar (n % 10)]

/-- Decimal digits of `n`, most significant first (fuel-bounded loop). -/
def digitsAux : ℕ → ℕ → List Char → List Char
  | 0, _, ds => ds
  | fuel + 1, n, ds =>
      let d := Nat.digitChar (n % 10)
      if n / 10 = 0 then d :: ds else digitsAux fuel (n / 10) (d :: ds)

/-- The decimal digit string of a natural number (`"0"` for zero). -/
def intChars (n : ℕ) : List Char :=
  digitsAux (n + 1) n []

/-- Insert a comma after every third character, counting from the front of
the (reversed) digit list. -/
def groupRev : List Char → List Char
  | a :: b :: c :: d :: rest => a :: b :: c :: ',' :: groupRev (d :: rest)
  | l => l

/-- en-US thousands grouping of an integer digit string. -/
def commaGroup (l : List Char) : List Char :=
  (groupRev l.reverse).reverse

/-- The magnitude of a rational (the sign is rendered separately). -/
def jabs (q : ℚ) : ℚ :=
  if q < 0 then -q else q

/-- The magnitude of `q` scaled by `10 ^ d` and rounded half away from
zero. -/
def scaledRound (q : ℚ) (d : ℕ) : ℕ :=
  (⌊jabs q * (10 : ℚ) ^ d + 1 / 2⌋).toNat

/-- Fixed-point rendering of `|q|` with `d` fraction digits and grouping. -/
def fixedChars (q : ℚ) (d : ℕ) : List Char :=
  let n := scaledRound q d
  commaGroup (intChars (n / 10 ^ d)) ++ '.' :: padDigits (n % 10 ^ d) d

/-- Model of `formatCurrency` (source `part_000` lines 21-30): `"$0.00"` for
non-finite input, otherwise en-US USD with two decimals. -/
def formatCurrency (value : JSNum) : String :=
  if !value.isFinite then "$0.00"
  else ⟨(if qOf value < 0 then ['-'] else []) ++ '$' :: fixedChars (qOf value) 2⟩

/-- Model of `formatNumber` (source `part_000` lines 33-40): `"0"` for non-finite
input, otherwise `decimals` fraction digits when `value < 0.1` and two
otherwise.  In the source `decimals` defaults to 6. -/
def formatNumber (value : JSNum) (decimals : ℕ) : String :=
  if !value.isFinite then "0"
  else
    ⟨(if qOf value < 0 then ['-'] else []) ++
      fixedChars (qOf value) (if jLtq value (1 / 10) then decimals else 2)⟩

/-- Model of `formatPercentage` (source `part_000` lines 43-52): `"-"` for absent or
non-finite input, otherwise `value / 100` in percent style with an explicit
sign and two decimals (so the rendered magnitude is `value` itself). -/
def formatPercentage (value : Option JSNum) : String :=
  match value with
  | none => "-"
  | some v =>
      if !v.isFinite then "-"
      else ⟨(if qOf v < 0 then ['-'] else ['+']) ++ fixedChars (qOf v) 2 ++ ['%']⟩

/-- Model of `formatPercentage` of the dashboard page (source `part_001` lines
1126-1135): `"0.00%"` for non-finite input and no explicit plus sign. -/
def formatPercentagePage (value : JSNum) : String :=
  if !value.isFinite then "0.00%"
  else ⟨(if qOf value < 0 then ['-'] else []) ++ fixedChars (qOf value) 2 ++ ['%']⟩

/-- Model of `formatDate` (source `part_000` lines 55-63).  `!timestamp` is true for
an absent, zero or `NaN` timestamp and yields `""`.  Otherwise
`new Date(timestamp)` is valid only for finite values of magnitude at most
8.64e15; `toLocaleDateString` renders an invalid date as `"Invalid Date"`
(locale-independent per ECMA-402), and a valid one through the host's
locale renderer, the parameter `render`. -/
def formatDate (render : ℚ → String) (timestamp : Option JSNum) : String :=
  match timestamp with
  | none => ""
  | some t =>
      if t = .num 0 ∨ t = .nan then ""
      else
        match t with
        | .num q => if |q| ≤ 8640000000000000 then render q else "Invalid Date"
        | _ => "Invalid Date"

/-! ### Cache store and refresh controller (source `part_001`) -/

/-- The four `localStorage` keys (source lines 1032-1035, 1063-1066); JSON
serialization round-trips structured values, so each slot holds the value
itself. -/
structure Storage where
  binance_portfolio_data : Option PortfolioData
  binance_spot_holdings : Option (List Holding)
  binance_margin_holdings : Option (List Holding)
  binance_futures_holdings : Option (List Holding)
deriving DecidableEq

/-- The component state touched by the data flow (source lines 1009-1025). -/
structure ComponentState where
  portfolioData : PortfolioData
  spotHoldings : List Holding
  marginHoldings : List Holding
  futuresHoldings : List Holding
  isLoading : Bool
  isRefreshing : Bool
  error : Option String
deriving DecidableEq

/-- Model of `loadCachedData` (source lines 1029-1059).  Each slot is applied
independently.  A found snapshot has its `last_updated` rewritten to
`` `${new Date(cachedData.last_updated).toLocaleTimeString()} (cached)` ``:
the stored string is re-parsed and re-rendered by the host — modelled by the
parameter `reformatTime` — and only then suffixed.  The function returns
whether any slot was present; it never writes to storage (its type has no
storage output). -/
def loadCachedData (reformatTime : String → String) (storage : Storage)
    (st : ComponentState) : ComponentState × Bool :=
  let st1 :=
    match storage.binance_portfolio_data with
    | some cachedData =>
        { st with
            portfolioData :=
              { cachedData with
                  last_updated := reformatTime cachedData.last_updated ++ " (cached)" } }
    | none => st
  let st2 :=
    match storage.binance_spot_holdings with
    | some l => { st1 with spotHoldings := l }
    | none => st1
  let st3 :=
    match storage.binance_margin_holdings with
    | some l => { st2 with marginHoldings := l }
    | none => st2
  let st4 :=
    match storage.binance_futures_holdings with
    | some l => { st3 with futuresHoldings := l }
    | none => st3
  (st4,
    storage.binance_portfolio_data.isSome || storage.binance_spot_holdings.isSome ||
      storage.binance_margin_holdings.isSome || storage.binance_futures_holdings.isSome)

/-- Model of `saveDataToCache` (source lines 1061-1071): store the four payloads
under their keys, unchanged. -/
def saveDataToCache (data : PortfolioData) (spot margin futures : List Holding) :
    Storage :=
  { binance_portfolio_data := some data
    binance_spot_holdings := some spot
    binance_margin_holdings := some margin
    binance_futures_holdings := some futures }

/-- Outcome of `ApiService.getBinanceHoldings()` as seen by
`fetchPortfolioData`: a payload with `status === 'success'`, or a thrown /
non-success error collapsed to its message. -/
inductive FetchResult where
  | success (data : PortfolioApiData)
  | failure (msg : String)
deriving DecidableEq

/-- The hardcoded fallback snapshot (source lines 1516-1524). -/
def fallbackPortfolioData (now : String) : PortfolioData :=
  { total_value := .num (3456789 / 100)
    change_24h := .num (25 / 10)
    holdings_count := 12
    spot_value := .num (1893245 / 100)
    margin_value := .num (825432 / 100)
    futures_value := .num (738112 / 100)
    asset_allocation := none
    sector_allocation := none
    last_updated := now }

/-- The hardcoded fallback spot holdings (source lines 1526-1530). -/
def fallbackSpotHoldings : List Holding :=
  [{ symbol := "BTC", amount := .num (45 / 100), price_usd := .num 42500,
     total_usd := .num 19125, change_24h := some (.num (23 / 10)), avg_buy_price := none,
     pnl := none, pnl_percentage := none, first_buy_time := none, last_buy_time := none },
   { symbol := "ETH", amount := .num (325 / 100), price_usd := .num 2800,
     total_usd := .num 9100, change_24h := some (.num (18 / 10)), avg_buy_price := none,
     pnl := none, pnl_percentage := none, first_buy_time := none, last_buy_time := none },
   { symbol := "SOL", amount := .num (428 / 10), price_usd := .num 135,
     total_usd := .num 5778, change_24h := some (.num (-7 / 10)), avg_buy_price := none,
     pnl := none, pnl_percentage := none, first_buy_time := none, last_buy_time := none }]

/-- The hardcoded fallback margin holdings (source lines 1532-1535). -/
def fallbackMarginHoldings : List Holding :=
  [{ symbol := "BTC", amount := .num (12 / 100), price_usd := .num 42500,
     total_usd := .num 5100, change_24h := some (.num (23 / 10)), avg_buy_price := none,
     pnl := none, pnl_percentage := none, first_buy_time := none, last_buy_time := none },
   { symbol := "ETH", amount := .num (115 / 100), price_usd := .num 2800,
     total_usd := .num 3220, change_24h := some (.num (18 / 10)), avg_buy_price := none,
     pnl := none, pnl_percentage := none, first_buy_time := none, last_buy_time := none }]

/-- The hardcoded fallback futures holdings (source lines 1537-1540). -/
def fallbackFuturesHoldings : List Holding :=
  [{ symbol := "BTC", amount := .num (8 / 100), price_usd := .num 42500,
     total_usd := .num 3400, change_24h := some (.num (23 / 10)), avg_buy_price := none,
     pnl := none, pnl_percentage := none, first_buy_time := none, last_buy_time := none },
   { symbol := "ETH", amount := .num (142 / 100), price_usd := .num 2800,
     total_usd := .num 3976, change_24h := some (.num (18 / 10)), avg_buy_price := none,
     pnl := none, pnl_percentage := none, first_buy_time := none, last_buy_time := none }]

/-- The `finally` block (source lines 1543-1549). -/
def finallyReset (isBackgroundRefresh : Bool) (st : ComponentState) : ComponentState :=
  if isBackgroundRefresh then { st with isRefreshing := false }
  else { st with isLoading := false }

/-- Model of `fetchPortfolioData` (source lines 1201-1550) for one resolved fetch.
On success the processed holdings and the validated snapshot replace the
in-memory state, and `saveDataToCache` is called with `validatedData` but
with the closure's render-time holdings lists `spotHoldings`,
`marginHoldings`, `futuresHoldings` (source lines 1486-1491) — i.e. with
`st`'s original lists, not the freshly processed ones.  On failure during a
foreground load the error is surfaced, and the fallback data is installed
exactly when the closure's `portfolioData.total_value === 0` (source line
1514); a background failure only resets the refreshing flag. -/
def fetchPortfolioData (now : String) (isBackgroundRefresh : Bool)
    (response : FetchResult) (st : ComponentState) (storage : Storage) :
    ComponentState × Storage :=
  let st0 :=
    if isBackgroundRefresh then { st with isRefreshing := true }
    else { st with isLoading := true }
  let st0 := { st0 with error := none }
  match response with
  | .success data =>
      let res := calculateValues data
      let st1 :=
        { st0 with
            spotHoldings := res.2.1
            marginHoldings := res.2.2.1
            futuresHoldings := res.2.2.2 }
      let vd := validatedData now data res.1
      let st2 := { st1 with portfolioData := vd }
      let storage1 := saveDataToCache vd st.spotHoldings st.marginHoldings st.futuresHoldings
      (finallyReset isBackgroundRefresh st2, storage1)
  | .failure msg =>
      if !isBackgroundRefresh then
        let st1 := { st0 with error := some msg }
        if st.portfolioData.total_value = .num 0 then
          (finallyReset isBackgroundRefresh
            { st1 with
                portfolioData := fallbackPortfolioData now
                spotHoldings := fallbackSpotHoldings
                marginHoldings := fallbackMarginHoldings
                futuresHoldings := fallbackFuturesHoldings },
           storage)
        else (finallyReset isBackgroundRefresh st1, storage)
      else (finallyReset isBackgroundRefresh st0, storage)

/-! ### Basic facts about the JS-number operations -/

/-- The numeric fields of a candidate holding are finite, and its
`change_24h` is either absent or finite. -/
structure CandOK (h : Holding) : Prop where
  amountNum : ∃ a, h.amount = JSNum.num a
  priceNum : ∃ p, h.price_usd = JSNum.num p
  totalNum : ∃ t, h.total_usd = JSNum.num t
  chShape : h.change_24h = none ∨ ∃ c, h.change_24h = some (JSNum.num c)

/-- Every value of the map is finite. -/
def ValsNum (m : List (String × JSNum)) : Prop :=
  ∀ p ∈ m, ∃ q, p.2 = JSNum.num q

/-- Every value of the map is finite and positive. -/
def ValsPos (m : List (String × JSNum)) : Prop :=
  ∀ p ∈ m, ∃ q, p.2 = JSNum.num q ∧ 0 < q

/-- The total of the finite values of a map. -/
def qSum (m : List (String × JSNum)) : ℚ :=
  (m.map (fun p => qOf p.2)).sum

/-- Every accumulator of the loop state is finite and all recorded asset
values are positive. -/
structure StOK (st : AggState) : Prop where
  spotNum : ∃ a, st.totalSpotValue = JSNum.num a
  marginNum : ∃ a, st.totalMarginValue = JSNum.num a
  futuresNum : ∃ a, st.totalFuturesValue = JSNum.num a
  twcNum : ∃ a, st.totalWeightedChange = JSNum.num a
  tvwcNum : ∃ a, st.totalValueWithChange = JSNum.num a
  valsPos : ValsPos st.assetValues

/-- A holding accepted by the inclusion guard: positive finite `total_usd`
and a `change_24h` that is absent or finite. -/
structure HOK (h : Holding) : Prop where
  tpos : ∃ t, h.total_usd = JSNum.num t ∧ 0 < t
  chShape : h.change_24h = none ∨ ∃ c, h.change_24h = some (JSNum.num c)

/-- The (finite) dollar value a holding contributes. -/
def hval (h : Holding) : ℚ := qOf h.total_usd

/-- The contribution of a holding to `totalWeightedChange`. -/
def wChange (h : Holding) : ℚ :=
  match h.change_24h with
  | some c => qOf c * qOf h.total_usd
  | none => 0

/-- The contribution of a holding to `totalValueWithChange`. -/
def wWeight (h : Holding) : ℚ :=
  match h.change_24h with
  | some _ => qOf h.total_usd
  | none => 0

/-- Sum of the dollar values of a holdings list. -/
def sumVal (l : List Holding) : ℚ := (l.map hval).sum

/-- Sum of the weighted-change contributions of a holdings list. -/
def sumWC (l : List Holding) : ℚ := (l.map wChange).sum

/-- Sum of the weights (values of change-carrying holdings) of a list. -/
def sumW (l : List Holding) : ℚ := (l.map wWeight).sum

/-- How one segment loop transforms the accumulator state, in terms of the
holdings `Δ` it accepted. -/
structure FoldSpec (seg : Segment) (st st' : AggState) (Δ : List Holding) : Prop where
  hok : ∀ h ∈ Δ, HOK h
  stok : StOK st'
  spotEq : qOf st'.totalSpotValue =
    qOf st.totalSpotValue + (if seg = .spot then sumVal Δ else 0)
  marginEq : qOf st'.totalMarginValue =
    qOf st.totalMarginValue + (if seg = .margin then sumVal Δ else 0)
  futuresEq : qOf st'.totalFuturesValue =
    qOf st.totalFuturesValue + (if seg = .futures then sumVal Δ else 0)
  qSumEq : qSum st'.assetValues = qSum st.assetValues + sumVal Δ
  twcEq : qOf st'.totalWeightedChange = qOf st.totalWeightedChange + sumWC Δ
  tvwcEq : qOf st'.totalValueWithChange = qOf st.totalValueWithChange + sumW Δ

/-- What the three sequential segment loops compute, in terms of the three
processed holdings lists. -/
structure AggSpec (data : PortfolioApiData) : Prop where
  stok : StOK (aggregateAll data).1
  hokS : ∀ h ∈ (aggregateAll data).2.1, HOK h
  hokM : ∀ h ∈ (aggregateAll data).2.2.1, HOK h
  hokF : ∀ h ∈ (aggregateAll data).2.2.2, HOK h
  spotVal : (aggregateAll data).1.totalSpotValue = .num (sumVal (aggregateAll data).2.1)
  marginVal : (aggregateAll data).1.totalMarginValue = .num (sumVal (aggregateAll data).2.2.1)
  futuresVal : (aggregateAll data).1.totalFuturesValue = .num (sumVal (aggregateAll data).2.2.2)
  qSumVals : qSum (aggregateAll data).1.assetValues =
    sumVal (aggregateAll data).2.1 + sumVal (aggregateAll data).2.2.1 +
      sumVal (aggregateAll data).2.2.2
  twcVal : (aggregateAll data).1.totalWeightedChange =
    .num (sumWC ((aggregateAll data).2.1 ++ (aggregateAll data).2.2.1 ++
      (aggregateAll data).2.2.2))
  tvwcVal : (aggregateAll data).1.totalValueWithChange =
    .num (sumW ((aggregateAll data).2.1 ++ (aggregateAll data).2.2.1 ++
      (aggregateAll data).2.2.2))

/-- The processed spot holdings of a payload. -/
def procS (data : PortfolioApiData) : List Holding := (calculateValues data).2.1

/-- The processed margin holdings of a payload. -/
def procM (data : PortfolioApiData) : List Holding := (calculateValues data).2.2.1

/-- The processed futures holdings of a payload. -/
def procF (data : PortfolioApiData) : List Holding := (calculateValues data).2.2.2

/-- All processed holdings of a payload, in segment order. -/
def procAll (data : PortfolioApiData) : List Holding :=
  procS data ++ procM data ++ procF data

/-- The exact portfolio total of a payload. -/
def calcTotal (data : PortfolioApiData) : ℚ :=
  sumVal (procS data) + sumVal (procM data) + sumVal (procF data)

/-- The content of the record returned by `calculateValues`, in exact
arithmetic, together with the allocation-list properties. -/
structure CVSpec (data : PortfolioApiData) : Prop where
  hokAll : ∀ h ∈ procAll data, HOK h
  spotValue : (calculateValues data).1.spotValue = .num (sumVal (procS data))
  marginValue : (calculateValues data).1.marginValue = .num (sumVal (procM data))
  futuresValue : (calculateValues data).1.futuresValue = .num (sumVal (procF data))
  totalValue : (calculateValues data).1.totalValue = .num (calcTotal data)
  averageChange : (calculateValues data).1.averageChange =
    if 0 < sumW (procAll data) then
      .num (sumWC (procAll data) / sumW (procAll data))
    else .num 0
  allocMem : ∀ e ∈ (calculateValues data).1.assetAllocation,
    ∃ v, e.value = .num v ∧ 0 < v ∧ e.percentage = .num (100 * v / calcTotal data)
  allocValSum : 0 < calcTotal data →
    (((calculateValues data).1.assetAllocation).map (fun e => qOf e.value)).sum =
      calcTotal data
  allocPercSum : 0 < calcTotal data →
    (((calculateValues data).1.assetAllocation).map (fun e => qOf e.percentage)).sum = 100
  allocSorted : ((calculateValues data).1.assetAllocation).Pairwise
    (fun a b => qOf b.value ≤ qOf a.value)
  allocEmpty : ¬ 0 < calcTotal data → (calculateValues data).1.assetAllocation = []
  sectorMem : ∀ e ∈ (calculateValues data).1.sectorAllocation,
    ∃ v, e.value = .num v ∧ 0 < v ∧ e.percentage = .num (100 * v / calcTotal data)
  sectorValSum : 0 < calcTotal data →
    (((calculateValues data).1.sectorAllocation).map (fun e => qOf e.value)).sum =
      calcTotal data
  sectorEmpty : ¬ 0 < calcTotal data → (calculateValues data).1.sectorAllocation = []

/-! ### Further spec-level definitions -/

/-- The content of the `validatedData` snapshot in exact arithmetic. -/
structure VDSpec (data : PortfolioApiData) (now : String) : Prop where
  vTotal : (validatedData now data (calculateValues data).1).total_value =
    .num (calcTotal data)
  vSpot : (validatedData now data (calculateValues data).1).spot_value =
    .num (sumVal (procS data))
  vMargin : (validatedData now data (calculateValues data).1).margin_value =
    .num (sumVal (procM data))
  vFutures : (validatedData now data (calculateValues data).1).futures_value =
    .num (sumVal (procF data))
  vChange : (validatedData now data (calculateValues data).1).change_24h =
    (calculateValues data).1.averageChange
  vAlloc : (validatedData now data (calculateValues data).1).asset_allocation =
    some ((calculateValues data).1.assetAllocation)
  vSector : (validatedData now data (calculateValues data).1).sector_allocation =
    some ((calculateValues data).1.sectorAllocation)

/-- Whether `"USDT"` occurs as a contiguous subsequence. -/
def containsUSDT : List Char → Bool
  | 'U' :: 'S' :: 'D' :: 'T' :: _ => true
  | _ :: rest => containsUSDT rest
  | [] => false

/-- The claim's reading of the futures symbol rule: strip a trailing
`"USDT"` suffix, leave anything else unchanged. -/
def stripTrailingUSDT (l : List Char) : List Char :=
  if ['U', 'S', 'D', 'T'].isSuffixOf l then l.dropLast.dropLast.dropLast.dropLast else l

/-- The number of characters after the (first) decimal point of a rendered
number. -/
def fracDigitCount (s : String) : ℕ :=
  ((s.data.dropWhile (fun c => c != '.')).drop 1).length

/-- A raw spot record with only the aggregation-relevant fields set. -/
def mkSpotRec (total price_usd total_usd change_24h : Option ℚ) : SpotHoldingData :=
  { total := total, price_usd := price_usd, total_usd := total_usd,
    change_24h := change_24h, avg_buy_price := none, pnl := none, pnl_percentage := none,
    first_buy_time := none, last_buy_time := none }

/-- A raw futures record with no fields set. -/
def emptyFuturesRec : FuturesHoldingData :=
  { amount := none, entry_price := none, current_price := none, unrealized_pnl := none,
    unrealized_pnl_usd := none, usd_value := none, change_24h := none }

/-- A payload with only spot holdings and an optional top-level change. -/
def mkPayload (spot : List (String × SpotHoldingData)) (change : Option ℚ) :
    PortfolioApiData :=
  { spot_holdings := some spot, margin_holdings := none, futures_holdings := none,
    total_value := none, change_24h := change }

/-- The worked example of the specification: BTC 1 × 50000 with +10%, ETH
2 × 2000 (total 4000) with −5%. -/
def specExampleData : PortfolioApiData :=
  mkPayload
    [("BTC_spot", mkSpotRec (some 1) (some 50000) (some 50000) (some 10)),
     ("ETH_spot", mkSpotRec (some 2) (some 2000) (some 4000) (some (-5)))]
    none

/-- A payload with no holdings at all. -/
def emptyPayload : PortfolioApiData :=
  { spot_holdings := none, margin_holdings := none, futures_holdings := none,
    total_value := none, change_24h := none }

/-- One included holding without `change_24h`, while the raw API payload
carries a finite top-level `change_24h` of 5. -/
def noChangePayload : PortfolioApiData :=
  mkPayload [("BTC_spot", mkSpotRec (some 1) (some 50000) (some 50000) none)] (some 5)

/-- Two included holdings with different amounts and prices but the same
`change_24h` of 2.3. -/
def constChangePayload : PortfolioApiData :=
  mkPayload
    [("BTC_spot", mkSpotRec (some 1) (some 50000) (some 50000) (some (23 / 10))),
     ("ETH_spot", mkSpotRec (some 2) (some 2000) (some 4000) (some (23 / 10)))]
    none

/-- The malformed record of the specification's example:
`{amount: -1, price_usd: 100, total_usd: -100}`. -/
def malformedSpotRec : SpotHoldingData :=
  mkSpotRec (some (-1)) (some 100) (some (-100)) none

/-- A record with `amount = 0`. -/
def zeroAmountSpotRec : SpotHoldingData :=
  mkSpotRec (some 0) (some 100) (some 0) none

/-- A well-formed record used next to the malformed ones. -/
def goodSpotRec : SpotHoldingData :=
  mkSpotRec (some 1) (some 50000) (some 50000) (some 10)

/-- The initial component state (source lines 1009-1025). -/
def initialComponentState (now : String) : ComponentState :=
  { portfolioData :=
      { total_value := .num 0, change_24h := .num 0, holdings_count := 0,
        spot_value := .num 0, margin_value := .num 0, futures_value := .num 0,
        asset_allocation := none, sector_allocation := none, last_updated := now }
    spotHoldings := [], marginHoldings := [], futuresHoldings := []
    isLoading := false, isRefreshing := false, error := none }

/-- Storage with no cached entries. -/
def emptyStorage : Storage :=
  { binance_portfolio_data := none, binance_spot_holdings := none,
    binance_margin_holdings := none, binance_futures_holdings := none }

/-- A legitimately empty cached snapshot (`total_value = 0`), as produced by
a successful fetch with no included holdings. -/
def zeroSnapshot : PortfolioData :=
  { total_value := .num 0, change_24h := .num 0, holdings_count := 0,
    spot_value := .num 0, margin_value := .num 0, futures_value := .num 0,
    asset_allocation := none, sector_allocation := none, last_updated := "10:00:00 AM" }

/-- Storage holding only the zero-total cached snapshot. -/
def cachedZeroStorage : Storage :=
  { binance_portfolio_data := some zeroSnapshot, binance_spot_holdings := none,
    binance_margin_holdings := none, binance_futures_holdings := none }

/-- The component state after loading `cachedZeroStorage` (cached data was
present, the snapshot total is 0). -/
def cachedZeroState : ComponentState :=
  (loadCachedData (fun s => s) cachedZeroStorage (initialComponentState "09:00:00 AM")).1

/-- A snapshot with a recognisable timestamp, for the cache round trip. -/
def samplePortfolioData : PortfolioData :=
  { total_value := .num 100, change_24h := .num 1, holdings_count := 1,
    spot_value := .num 100, margin_value := .num 0, futures_value := .num 0,
    asset_allocation := none, sector_allocation := none, last_updated := "10:00:00 AM" }

theorem qOf_num (q : ℚ) : qOf (.num q) = q := rfl

theorem jAdd_num (a b : ℚ) : jAdd (.num a) (.num b) = .num (a + b) := rfl

theorem jMul_num (a b : ℚ) : jMul (.num a) (.num b) = .num (a * b) := rfl

theorem jGt0_num (q : ℚ) : jGt0 (.num q) = decide (0 < q) := rfl

theorem num_ne_nan (q : ℚ) : JSNum.num q ≠ JSNum.nan :=
  fun h => JSNum.noConfusion h

theorem num_ne_inf (q : ℚ) : JSNum.num q ≠ JSNum.inf :=
  fun h => JSNum.noConfusion h

theorem num_ne_ninf (q : ℚ) : JSNum.num q ≠ JSNum.ninf :=
  fun h => JSNum.noConfusion h

theorem num_eq_num (a b : ℚ) : (JSNum.num a = JSNum.num b) ↔ a = b :=
  ⟨fun h => by cases h; rfl, fun h => by rw [h]⟩

theorem isFinite_num (q : ℚ) : (JSNum.num q).isFinite = true := rfl

theorem jGt0_num_true {q : ℚ} (h : jGt0 (.num q) = true) : 0 < q := by
  simpa [jGt0_num] using h

/-- JS `Number(field) || 0` always yields a finite value on a JSON field. -/
theorem jOr_numberOf_zero (o : Option ℚ) :
    jOr (numberOf o) (.num 0) = .num (o.getD 0) := by
  cases o with
  | none => rfl
  | some q =>
      by_cases h : q = 0
      · simp [numberOf, jOr, h]
      · simp [numberOf, jOr, h, num_eq_num, num_ne_nan]

/-- JS `Number(field) || fallback` is finite whenever the fallback is. -/
theorem jOr_numberOf_num (o : Option ℚ) (x : JSNum) (a : ℚ) (hx : x = .num a) :
    ∃ t, jOr (numberOf o) x = .num t := by
  cases o with
  | none => exact ⟨a, by simp [numberOf, jOr, hx]⟩
  | some q =>
      by_cases h : q = 0
      · exact ⟨a, by simp [numberOf, jOr, h, hx]⟩
      · exact ⟨q, by simp [numberOf, jOr, h, num_eq_num, num_ne_nan]⟩

theorem candidate_core (o1 o2 o3 : Option ℚ) :
    ∃ a p t, jOr (numberOf o1) (.num 0) = .num a ∧ jOr (numberOf o2) (.num 0) = .num p ∧
      jOr (numberOf o3)
        (jMul (jOr (numberOf o1) (.num 0)) (jOr (numberOf o2) (.num 0))) = .num t := by
  refine ⟨o1.getD 0, o2.getD 0, ?_⟩
  obtain ⟨t, ht⟩ :=
    jOr_numberOf_num o3
      (jMul (jOr (numberOf o1) (.num 0)) (jOr (numberOf o2) (.num 0)))
      (o1.getD 0 * o2.getD 0)
      (by rw [jOr_numberOf_zero, jOr_numberOf_zero, jMul_num])
  exact ⟨t, jOr_numberOf_zero o1, jOr_numberOf_zero o2, ht⟩

theorem spotCandidate_ok (kv : String × SpotHoldingData) : CandOK (spotCandidate kv) := by
  obtain ⟨a, p, t, ha, hp, ht⟩ :=
    candidate_core kv.2.total kv.2.price_usd kv.2.total_usd
  refine ⟨⟨a, ha⟩, ⟨p, hp⟩, ⟨t, ht⟩, ?_⟩
  cases h : kv.2.change_24h with
  | none => exact Or.inl (by simp [spotCandidate, h])
  | some c => exact Or.inr ⟨c, by simp [spotCandidate, h]⟩

theorem marginCandidate_ok (kv : String × MarginHoldingData) :
    CandOK (marginCandidate kv) := by
  obtain ⟨a, p, t, ha, hp, ht⟩ :=
    candidate_core kv.2.net_asset kv.2.price_usd kv.2.net_asset_usd
  refine ⟨⟨a, ha⟩, ⟨p, hp⟩, ⟨t, ht⟩, ?_⟩
  cases h : kv.2.change_24h with
  | none => exact Or.inl (by simp [marginCandidate, h])
  | some c => exact Or.inr ⟨c, by simp [marginCandidate, h]⟩

theorem futuresCandidate_ok (kv : String × FuturesHoldingData) :
    CandOK (futuresCandidate kv) := by
  obtain ⟨a, p, t, ha, hp, ht⟩ :=
    candidate_core kv.2.amount kv.2.current_price kv.2.usd_value
  refine ⟨⟨a, ha⟩, ⟨p, hp⟩, ⟨t, ht⟩, ?_⟩
  cases h : kv.2.change_24h with
  | none => exact Or.inl (by simp [futuresCandidate, h])
  | some c => exact Or.inr ⟨c, by simp [futuresCandidate, h]⟩

/-! ### Value-map lemmas -/

theorem ValsPos.valsNum {m} (h : ValsPos m) : ValsNum m :=
  fun p hp => (h p hp).imp fun _ hq => hq.1

theorem getOrZero_pos (m : List (String × JSNum)) (k : String) (hm : ValsPos m) :
    ∃ q, getOrZero m k = .num q ∧ 0 ≤ q := by
  unfold getOrZero mapGet
  cases hfind : List.find? (fun p => p.1 == k) m with
  | none => exact ⟨0, by simp, le_refl 0⟩
  | some p =>
      obtain ⟨q, hq, hqpos⟩ := hm p (List.mem_of_find?_eq_some hfind)
      by_cases h0 : q = 0
      · exact ⟨0, by simp [hq, jOr, h0], le_refl 0⟩
      · exact ⟨q, by simp [hq, jOr, h0, num_eq_num, num_ne_nan], le_of_lt hqpos⟩

theorem qSum_mapSet (m : List (String × JSNum)) (k : String) (v : JSNum)
    (hm : ValsNum m) :
    qSum (mapSet m k v) = qSum m - qOf (getOrZero m k) + qOf v := by
  induction m with
  | nil => simp [mapSet, qSum, getOrZero, mapGet, qOf]
  | cons p rest ih =>
      have hrest : ValsNum rest := fun x hx => hm x (List.mem_cons_of_mem _ hx)
      obtain ⟨q, hq⟩ := hm p (List.mem_cons_self _ _)
      by_cases hk : p.1 = k
      · have hfind : List.find? (fun x => x.1 == k) (p :: rest) = some p :=
          List.find?_cons_of_pos _ (by simp [hk])
        have hget : getOrZero (p :: rest) k = jOr p.2 (.num 0) := by
          simp [getOrZero, mapGet, hfind]
        have hqOf : qOf (jOr p.2 (.num 0)) = q := by
          by_cases h0 : q = 0
          · simp [hq, jOr, h0, qOf]
          · simp [hq, jOr, h0, num_eq_num, num_ne_nan, qOf]
        rw [hq] at hqOf
        simp only [mapSet, if_pos hk, qSum, List.map_cons, List.sum_cons, hget, hq, hqOf,
          qOf_num]
        ring
      · have hfind : List.find? (fun x => x.1 == k) (p :: rest) =
            List.find? (fun x => x.1 == k) rest :=
          List.find?_cons_of_neg _ (by simp [hk])
        have hget : getOrZero (p :: rest) k = getOrZero rest k := by
          simp [getOrZero, mapGet, hfind]
        specialize ih hrest
        simp only [mapSet, if_neg hk, qSum, List.map_cons, List.sum_cons, hget] at *
        rw [ih]
        ring

theorem ValsPos_mapSet (m : List (String × JSNum)) (k : String) (q : ℚ)
    (hm : ValsPos m) (hq : 0 < q) : ValsPos (mapSet m k (.num q)) := by
  induction m with
  | nil =>
      intro p hp
      simp only [mapSet, List.mem_singleton] at hp
      exact ⟨q, by simp [hp], hq⟩
  | cons x rest ih =>
      have hrest : ValsPos rest := fun y hy => hm y (List.mem_cons_of_mem _ hy)
      by_cases hk : x.1 = k
      · intro p hp
        simp only [mapSet, if_pos hk, List.mem_cons] at hp
        rcases hp with hp | hp
        · exact ⟨q, by simp [hp], hq⟩
        · exact hm p (List.mem_cons_of_mem _ hp)
      · intro p hp
        simp only [mapSet, if_neg hk, List.mem_cons] at hp
        rcases hp with hp | hp
        · exact hm p (by simp [hp])
        · exact ih hrest p hp

/-! ### The per-segment accumulation loops -/

theorem FoldSpec.refl (seg : Segment) (st : AggState) (h : StOK st) :
    FoldSpec seg st st [] := by
  refine ⟨by simp, h, ?_, ?_, ?_, ?_, ?_, ?_⟩ <;> simp [sumVal, sumWC, sumW]

theorem FoldSpec.comp {seg : Segment} {st st₁ st₂ : AggState} {Δ₁ Δ₂ : List Holding}
    (h1 : FoldSpec seg st st₁ Δ₁) (h2 : FoldSpec seg st₁ st₂ Δ₂) :
    FoldSpec seg st st₂ (Δ₁ ++ Δ₂) := by
  refine ⟨?_, h2.stok, ?_, ?_, ?_, ?_, ?_, ?_⟩
  · intro h hh
    rcases List.mem_append.mp hh with hh | hh
    · exact h1.hok h hh
    · exact h2.hok h hh
  · rw [h2.spotEq, h1.spotEq]
    simp only [sumVal, List.map_append, List.sum_append]
    split <;> ring
  · rw [h2.marginEq, h1.marginEq]
    simp only [sumVal, List.map_append, List.sum_append]
    split <;> ring
  · rw [h2.futuresEq, h1.futuresEq]
    simp only [sumVal, List.map_append, List.sum_append]
    split <;> ring
  · rw [h2.qSumEq, h1.qSumEq]
    simp only [sumVal, List.map_append, List.sum_append]
    ring
  · rw [h2.twcEq, h1.twcEq]
    simp only [sumWC, List.map_append, List.sum_append]
    ring
  · rw [h2.tvwcEq, h1.tvwcEq]
    simp only [sumW, List.map_append, List.sum_append]
    ring

theorem stepState_spec (seg : Segment) (h : Holding) (st : AggState)
    (hok : StOK st) (hcand : CandOK h) (hin : includedHolding h = true) :
    FoldSpec seg st (stepState seg h st) [h] := by
  obtain ⟨t, ht⟩ := hcand.totalNum
  have htpos : 0 < t := by
    have := hin
    unfold includedHolding at this
    rw [ht] at this
    simp only [Bool.and_eq_true] at this
    exact jGt0_num_true this.2
  obtain ⟨s, hs⟩ := hok.spotNum
  obtain ⟨m, hm⟩ := hok.marginNum
  obtain ⟨f, hf⟩ := hok.futuresNum
  obtain ⟨w, hw⟩ := hok.twcNum
  obtain ⟨v, hv⟩ := hok.tvwcNum
  obtain ⟨g, hg, hgpos⟩ := getOrZero_pos st.assetValues h.symbol hok.valsPos
  have hhok : HOK h := ⟨⟨t, ht, htpos⟩, hcand.chShape⟩
  have hhval : hval h = t := by simp [hval, ht, qOf]
  have hvalsPos : ValsPos (stepState seg h st).assetValues := by
    show ValsPos (mapSet st.assetValues h.symbol
      (jAdd (getOrZero st.assetValues h.symbol) h.total_usd))
    rw [hg, ht, jAdd_num]
    exact ValsPos_mapSet _ _ _ hok.valsPos (by linarith)
  have hqSum : qSum (stepState seg h st).assetValues = qSum st.assetValues + sumVal [h] := by
    show qSum (mapSet st.assetValues h.symbol
      (jAdd (getOrZero st.assetValues h.symbol) h.total_usd)) = _
    rw [qSum_mapSet _ _ _ hok.valsPos.valsNum, hg, ht, jAdd_num]
    simp only [sumVal, List.map_cons, List.map_nil, List.sum_cons, List.sum_nil, hhval, qOf_num]
    ring
  -- the weighted-change accumulators, by cases on the shape of change_24h
  have htwc : (stepState seg h st).totalWeightedChange = .num (w + wChange h) ∧
      (stepState seg h st).totalValueWithChange = .num (v + wWeight h) := by
    rcases hcand.chShape with hch | ⟨c, hch⟩
    · constructor
      · show (match h.change_24h with
          | some c => if c.isFinite then jAdd st.totalWeightedChange (jMul c h.total_usd)
                      else st.totalWeightedChange
          | none => st.totalWeightedChange) = _
        rw [hch]
        simp [hw, wChange, hch]
      · show (match h.change_24h with
          | some c => if c.isFinite then jAdd st.totalValueWithChange h.total_usd
                      else st.totalValueWithChange
          | none => st.totalValueWithChange) = _
        rw [hch]
        simp [hv, wWeight, hch]
    · constructor
      · show (match h.change_24h with
          | some c => if c.isFinite then jAdd st.totalWeightedChange (jMul c h.total_usd)
                      else st.totalWeightedChange
          | none => st.totalWeightedChange) = _
        rw [hch]
        simp only [isFinite_num, if_pos]
        rw [hw, ht, jMul_num, jAdd_num, wChange, hch]
        simp [qOf, ht]
      · show (match h.change_24h with
          | some c => if c.isFinite then jAdd st.totalValueWithChange h.total_usd
                      else st.totalValueWithChange
          | none => st.totalValueWithChange) = _
        rw [hch]
        simp only [isFinite_num, if_pos]
        rw [hv, ht, jAdd_num, wWeight, hch]
        simp [qOf, ht]
  have hspot : (stepState seg h st).totalSpotValue =
      .num (if seg = .spot then s + t else s) := by
    show (if seg = .spot then jAdd st.totalSpotValue h.total_usd else st.totalSpotValue) = _
    split <;> simp [hs, ht, jAdd_num]
  have hmargin : (stepState seg h st).totalMarginValue =
      .num (if seg = .margin then m + t else m) := by
    show (if seg = .margin then jAdd st.totalMarginValue h.total_usd
      else st.totalMarginValue) = _
    split <;> simp [hm, ht, jAdd_num]
  have hfutures : (stepState seg h st).totalFuturesValue =
      .num (if seg = .futures then f + t else f) := by
    show (if seg = .futures then jAdd st.totalFuturesValue h.total_usd
      else st.totalFuturesValue) = _
    split <;> simp [hf, ht, jAdd_num]
  refine ⟨by simpa using hhok,
    ⟨⟨_, hspot⟩, ⟨_, hmargin⟩, ⟨_, hfutures⟩, ⟨_, htwc.1⟩, ⟨_, htwc.2⟩, hvalsPos⟩,
    ?_, ?_, ?_, hqSum, ?_, ?_⟩
  · rw [hspot, hs]
    simp only [sumVal, List.map_cons, List.map_nil, List.sum_cons, List.sum_nil, hhval, qOf_num]
    split <;> ring
  · rw [hmargin, hm]
    simp only [sumVal, List.map_cons, List.map_nil, List.sum_cons, List.sum_nil, hhval, qOf_num]
    split <;> ring
  · rw [hfutures, hf]
    simp only [sumVal, List.map_cons, List.map_nil, List.sum_cons, List.sum_nil, hhval, qOf_num]
    split <;> ring
  · rw [htwc.1, hw]
    simp [sumWC, qOf]
  · rw [htwc.2, hv]
    simp [sumW, qOf]

theorem includeRecord_skip (seg : Segment) (h : Holding) (acc : AggState × List Holding)
    (hin : includedHolding h = false) : includeRecord seg h acc = acc := by
  simp [includeRecord, hin]

theorem foldl_includeRecord {α : Type} (seg : Segment) (view : α → Holding)
    (hview : ∀ x, CandOK (view x)) (l : List α) :
    ∀ (st : AggState) (hs : List Holding), StOK st →
    ∃ Δ : List Holding,
      (l.foldl (fun acc x => includeRecord seg (view x) acc) (st, hs)).2 = hs ++ Δ ∧
      FoldSpec seg st (l.foldl (fun acc x => includeRecord seg (view x) acc) (st, hs)).1 Δ := by
  induction l with
  | nil =>
      intro st hs hok
      exact ⟨[], by simp, FoldSpec.refl seg st hok⟩
  | cons x l ih =>
      intro st hs hok
      rw [List.foldl_cons]
      cases hin : includedHolding (view x) with
      | false =>
          rw [includeRecord_skip seg (view x) (st, hs) hin]
          exact ih st hs hok
      | true =>
          have hstep : includeRecord seg (view x) (st, hs) =
              (stepState seg (view x) st, hs ++ [view x]) := by
            simp [includeRecord, hin]
          rw [hstep]
          have hone := stepState_spec seg (view x) st hok (hview x) hin
          obtain ⟨Δ, hΔ, hfs⟩ := ih (stepState seg (view x) st) (hs ++ [view x]) hone.stok
          refine ⟨view x :: Δ, by simpa using hΔ, ?_⟩
          have := hone.comp hfs
          simpa using this

theorem eq_num_qOf {x : JSNum} {a : ℚ} (h : x = .num a) : x = .num (qOf x) := by
  rw [h]; rfl

theorem aggregateAll_ok (data : PortfolioApiData) : AggSpec data := by
  have hinit : StOK initialAggState :=
    ⟨⟨0, rfl⟩, ⟨0, rfl⟩, ⟨0, rfl⟩, ⟨0, rfl⟩, ⟨0, rfl⟩, by
      intro p hp
      simp [initialAggState] at hp⟩
  obtain ⟨Δ1, he1, f1⟩ :=
    foldl_includeRecord .spot spotCandidate spotCandidate_ok
      (data.spot_holdings.getD []) initialAggState [] hinit
  obtain ⟨Δ2, he2, f2⟩ :=
    foldl_includeRecord .margin marginCandidate marginCandidate_ok
      (data.margin_holdings.getD [])
      ((data.spot_holdings.getD []).foldl
        (fun acc x => includeRecord .spot (spotCandidate x) acc) (initialAggState, [])).1
      [] f1.stok
  obtain ⟨Δ3, he3, f3⟩ :=
    foldl_includeRecord .futures futuresCandidate futuresCandidate_ok
      (data.futures_holdings.getD [])
      ((data.margin_holdings.getD []).foldl
        (fun acc x => includeRecord .margin (marginCandidate x) acc)
        (((data.spot_holdings.getD []).foldl
          (fun acc x => includeRecord .spot (spotCandidate x) acc) (initialAggState, [])).1,
          [])).1
      [] f2.stok
  have hagg1 : (aggregateAll data).2.1 = Δ1 := by
    have : (aggregateAll data).2.1 =
        ((data.spot_holdings.getD []).foldl
          (fun acc x => includeRecord .spot (spotCandidate x) acc) (initialAggState, [])).2 :=
      rfl
    rw [this, he1]; simp
  have hagg2 : (aggregateAll data).2.2.1 = Δ2 := by
    have : (aggregateAll data).2.2.1 =
        ((data.margin_holdings.getD []).foldl
          (fun acc x => includeRecord .margin (marginCandidate x) acc)
          (((data.spot_holdings.getD []).foldl
            (fun acc x => includeRecord .spot (spotCandidate x) acc)
            (initialAggState, [])).1, [])).2 :=
      rfl
    rw [this, he2]; simp
  have hagg3 : (aggregateAll data).2.2.2 = Δ3 := by
    have : (aggregateAll data).2.2.2 =
        ((data.futures_holdings.getD []).foldl
          (fun acc x => includeRecord .futures (futuresCandidate x) acc)
          (((data.margin_holdings.getD []).foldl
            (fun acc x => includeRecord .margin (marginCandidate x) acc)
            (((data.spot_holdings.getD []).foldl
              (fun acc x => includeRecord .spot (spotCandidate x) acc)
              (initialAggState, [])).1, [])).1, [])).2 :=
      rfl
    rw [this, he3]; simp
  have hfs : FoldSpec .futures
      ((data.margin_holdings.getD []).foldl
        (fun acc x => includeRecord .margin (marginCandidate x) acc)
        (((data.spot_holdings.getD []).foldl
          (fun acc x => includeRecord .spot (spotCandidate x) acc)
          (initialAggState, [])).1, [])).1
      (aggregateAll data).1 Δ3 := f3
  -- accumulate the value equations across the three loops
  have hiSpot : qOf initialAggState.totalSpotValue = 0 := rfl
  have hiMargin : qOf initialAggState.totalMarginValue = 0 := rfl
  have hiFutures : qOf initialAggState.totalFuturesValue = 0 := rfl
  have hiTwc : qOf initialAggState.totalWeightedChange = 0 := rfl
  have hiTvwc : qOf initialAggState.totalValueWithChange = 0 := rfl
  have hiQSum : qSum initialAggState.assetValues = 0 := rfl
  have hSpot : qOf (aggregateAll data).1.totalSpotValue = sumVal Δ1 := by
    have e3 := hfs.spotEq
    have e2 := f2.spotEq
    have e1 := f1.spotEq
    simp only [reduceCtorEq, if_false, if_true, add_zero, hiSpot, zero_add] at e1 e2 e3
    linarith
  have hMargin : qOf (aggregateAll data).1.totalMarginValue = sumVal Δ2 := by
    have e3 := hfs.marginEq
    have e2 := f2.marginEq
    have e1 := f1.marginEq
    simp only [reduceCtorEq, if_false, if_true, add_zero, hiMargin, zero_add] at e1 e2 e3
    linarith
  have hFutures : qOf (aggregateAll data).1.totalFuturesValue = sumVal Δ3 := by
    have e3 := hfs.futuresEq
    have e2 := f2.futuresEq
    have e1 := f1.futuresEq
    simp only [reduceCtorEq, if_false, if_true, add_zero, hiFutures, zero_add] at e1 e2 e3
    linarith
  have hQSum : qSum (aggregateAll data).1.assetValues = sumVal Δ1 + sumVal Δ2 + sumVal Δ3 := by
    have e3 := hfs.qSumEq
    have e2 := f2.qSumEq
    have e1 := f1.qSumEq
    rw [e3, e2, e1, hiQSum, zero_add]
  have hTwc : qOf (aggregateAll data).1.totalWeightedChange =
      sumWC (Δ1 ++ Δ2 ++ Δ3) := by
    have e3 := hfs.twcEq
    have e2 := f2.twcEq
    have e1 := f1.twcEq
    rw [e3, e2, e1, hiTwc, zero_add]
    simp only [sumWC, List.map_append, List.sum_append]
  have hTvwc : qOf (aggregateAll data).1.totalValueWithChange =
      sumW (Δ1 ++ Δ2 ++ Δ3) := by
    have e3 := hfs.tvwcEq
    have e2 := f2.tvwcEq
    have e1 := f1.tvwcEq
    rw [e3, e2, e1, hiTvwc, zero_add]
    simp only [sumW, List.map_append, List.sum_append]
  have hstok : StOK (aggregateAll data).1 := hfs.stok
  refine ⟨hstok, ?_, ?_, ?_, ?_, ?_, ?_, ?_, ?_, ?_⟩
  · rw [hagg1]; exact f1.hok
  · rw [hagg2]; exact f2.hok
  · rw [hagg3]; exact f3.hok
  · obtain ⟨a, ha⟩ := hstok.spotNum
    rw [eq_num_qOf ha, hSpot, hagg1]
  · obtain ⟨a, ha⟩ := hstok.marginNum
    rw [eq_num_qOf ha, hMargin, hagg2]
  · obtain ⟨a, ha⟩ := hstok.futuresNum
    rw [eq_num_qOf ha, hFutures, hagg3]
  · rw [hQSum, hagg1, hagg2, hagg3]
  · obtain ⟨a, ha⟩ := hstok.twcNum
    rw [eq_num_qOf ha, hTwc, hagg1, hagg2, hagg3]
  · obtain ⟨a, ha⟩ := hstok.tvwcNum
    rw [eq_num_qOf ha, hTvwc, hagg1, hagg2, hagg3]

/-! ### Holdings-list sums -/

theorem hval_pos_of_hok {h : Holding} (hh : HOK h) : 0 < hval h := by
  obtain ⟨t, ht, htpos⟩ := hh.tpos
  simpa [hval, ht, qOf] using htpos

theorem sumVal_nonneg (l : List Holding) (hl : ∀ h ∈ l, HOK h) : 0 ≤ sumVal l := by
  induction l with
  | nil => simp [sumVal]
  | cons h t ih =>
      have h1 := hval_pos_of_hok (hl h (List.mem_cons_self _ _))
      have h2 := ih fun x hx => hl x (List.mem_cons_of_mem _ hx)
      simp only [sumVal, List.map_cons, List.sum_cons] at *
      linarith

theorem sumVal_pos (l : List Holding) (hl : ∀ h ∈ l, HOK h) (hne : l ≠ []) :
    0 < sumVal l := by
  cases l with
  | nil => exact absurd rfl hne
  | cons h t =>
      have h1 := hval_pos_of_hok (hl h (List.mem_cons_self _ _))
      have h2 := sumVal_nonneg t fun x hx => hl x (List.mem_cons_of_mem _ hx)
      simp only [sumVal, List.map_cons, List.sum_cons] at *
      linarith

theorem wWeight_nonneg {h : Holding} (hh : HOK h) : 0 ≤ wWeight h := by
  obtain ⟨t, ht, htpos⟩ := hh.tpos
  rcases hch : h.change_24h with _ | c <;> simp [wWeight, hch, ht, qOf, le_of_lt htpos]

theorem sumW_nonneg (l : List Holding) (hl : ∀ h ∈ l, HOK h) : 0 ≤ sumW l := by
  induction l with
  | nil => simp [sumW]
  | cons h t ih =>
      have h1 := wWeight_nonneg (hl h (List.mem_cons_self _ _))
      have h2 := ih fun x hx => hl x (List.mem_cons_of_mem _ hx)
      simp only [sumW, List.map_cons, List.sum_cons] at *
      linarith

theorem wWeight_pos_of_some {h : Holding} (hh : HOK h) (c : JSNum)
    (hc : h.change_24h = some c) : 0 < wWeight h := by
  obtain ⟨t, ht, htpos⟩ := hh.tpos
  simpa [wWeight, hc, ht, qOf] using htpos

theorem sumW_pos_of_mem (l : List Holding) (hl : ∀ h ∈ l, HOK h)
    (x : Holding) (hx : x ∈ l) (c : JSNum) (hc : x.change_24h = some c) :
    0 < sumW l := by
  induction l with
  | nil => simp at hx
  | cons h t ih =>
      have h1 := wWeight_nonneg (hl h (List.mem_cons_self _ _))
      have ht := fun y hy => hl y (List.mem_cons_of_mem _ hy)
      rcases List.mem_cons.mp hx with hx | hx
      · have hwpos : 0 < wWeight h :=
          wWeight_pos_of_some (hl h (List.mem_cons_self _ _)) c (hx ▸ hc)
        have h2 := sumW_nonneg t ht
        simp only [sumW, List.map_cons, List.sum_cons] at *
        linarith
      · have h3 := ih ht hx
        simp only [sumW, List.map_cons, List.sum_cons] at *
        linarith

theorem sumW_zero_of_none (l : List Holding)
    (hl : ∀ h ∈ l, h.change_24h = none) : sumW l = 0 := by
  induction l with
  | nil => simp [sumW]
  | cons h t ih =>
      have h1 : wWeight h = 0 := by simp [wWeight, hl h (List.mem_cons_self _ _)]
      have h2 := ih fun x hx => hl x (List.mem_cons_of_mem _ hx)
      simp only [sumW, List.map_cons, List.sum_cons] at *
      rw [h1, h2, zero_add]

theorem sums_of_const_change (l : List Holding) (c : ℚ)
    (hl : ∀ h ∈ l, h.change_24h = some (.num c)) :
    sumWC l = c * sumVal l ∧ sumW l = sumVal l := by
  induction l with
  | nil => simp [sumWC, sumW, sumVal]
  | cons h t ih =>
      have hh := hl h (List.mem_cons_self _ _)
      obtain ⟨ih1, ih2⟩ := ih fun x hx => hl x (List.mem_cons_of_mem _ hx)
      constructor
      · simp only [sumWC, sumVal, List.map_cons, List.sum_cons] at *
        rw [ih1, wChange, hh]
        simp only [qOf_num, hval]
        ring
      · simp only [sumW, sumVal, List.map_cons, List.sum_cons] at *
        rw [ih2, wWeight, hh, hval]

/-! ### Allocation construction -/

theorem sortByValueDesc_perm (l : List AssetAllocation) :
    List.Perm (sortByValueDesc l) l :=
  List.mergeSort_perm l _

theorem sortByValueDesc_sorted (l : List AssetAllocation) :
    (sortByValueDesc l).Pairwise (fun a b => qOf b.value ≤ qOf a.value) := by
  have htrans : ∀ a b c : AssetAllocation,
      decide (qOf b.value ≤ qOf a.value) →
      decide (qOf c.value ≤ qOf b.value) →
      decide (qOf c.value ≤ qOf a.value) := fun a b c hab hbc => by
    simp only [decide_eq_true_eq] at *
    exact le_trans hbc hab
  have htotal : ∀ a b : AssetAllocation,
      decide (qOf b.value ≤ qOf a.value) || decide (qOf a.value ≤ qOf b.value) :=
    fun a b => by
      simp only [Bool.or_eq_true, decide_eq_true_eq]
      exact le_total _ _
  have h := List.sorted_mergeSort htrans htotal l
  exact h.imp fun hab => of_decide_eq_true hab

theorem sortByValueDesc_mem (l : List AssetAllocation) (e : AssetAllocation) :
    e ∈ sortByValueDesc l ↔ e ∈ l :=
  (sortByValueDesc_perm l).mem_iff

theorem sortByValueDesc_map_sum (l : List AssetAllocation) (f : AssetAllocation → ℚ) :
    ((sortByValueDesc l).map f).sum = (l.map f).sum :=
  ((sortByValueDesc_perm l).map f).sum_eq

theorem buildAllocation_not_pos (values : List (String × JSNum)) (total : JSNum)
    (h : jGt0 total = false) : buildAllocationEntries values total = [] := by
  simp [buildAllocationEntries, h]

theorem buildAllocation_pos (values : List (String × JSNum)) (T : ℚ)
    (hvp : ValsPos values) (hT : 0 < T) :
    buildAllocationEntries values (.num T) =
      values.map (fun p =>
        { asset := p.1, value := p.2,
          percentage := jMul (jDiv p.2 (.num T)) (.num 100) }) := by
  unfold buildAllocationEntries
  rw [if_pos (show jGt0 (.num T) = true by simp [jGt0_num, hT])]
  congr 1
  apply List.filter_eq_self.mpr
  intro p hp
  obtain ⟨q, hq, hqp⟩ := hvp p hp
  simp [hq, jGt0_num, hqp]

theorem allocation_entry_sums (values : List (String × JSNum)) (T : ℚ)
    (hvp : ValsPos values) (hT : 0 < T) :
    ((values.map (fun p =>
        { asset := p.1, value := p.2,
          percentage := jMul (jDiv p.2 (.num T)) (.num 100) : AssetAllocation })).map
      (fun e => qOf e.value)).sum = qSum values ∧
    ((values.map (fun p =>
        { asset := p.1, value := p.2,
          percentage := jMul (jDiv p.2 (.num T)) (.num 100) : AssetAllocation })).map
      (fun e => qOf e.percentage)).sum = qSum values * (100 / T) := by
  induction values with
  | nil => simp [qSum]
  | cons p rest ih =>
      have hrest : ValsPos rest := fun x hx => hvp x (List.mem_cons_of_mem _ hx)
      obtain ⟨ih1, ih2⟩ := ih hrest
      obtain ⟨q, hq, hqp⟩ := hvp p (List.mem_cons_self _ _)
      have hTne : T ≠ 0 := ne_of_gt hT
      have hperc : qOf (jMul (jDiv (JSNum.num q) (.num T)) (.num 100)) = q * (100 / T) := by
        simp only [jDiv, if_neg hTne, jMul_num, qOf_num]
        ring
      constructor
      · simp only [List.map_cons, List.sum_cons, qSum, hq, qOf_num] at *
        rw [ih1]
      · simp only [List.map_cons, List.sum_cons, qSum, hq, hperc, qOf_num] at *
        rw [ih2]
        ring

theorem allocation_mem_shape (values : List (String × JSNum)) (T : ℚ)
    (hvp : ValsPos values) (hT : 0 < T) :
    ∀ e ∈ buildAllocationEntries values (.num T),
      ∃ v, e.value = .num v ∧ 0 < v ∧ e.percentage = .num (100 * v / T) := by
  rw [buildAllocation_pos values T hvp hT]
  intro e he
  obtain ⟨p, hp, hpe⟩ := List.mem_map.mp he
  obtain ⟨q, hq, hqp⟩ := hvp p hp
  have hTne : T ≠ 0 := ne_of_gt hT
  refine ⟨q, ?_, hqp, ?_⟩
  · rw [← hpe]; exact hq
  · rw [← hpe]
    show jMul (jDiv p.2 (.num T)) (.num 100) = _
    rw [hq]
    simp only [jDiv, if_neg hTne, jMul_num]
    rw [num_eq_num]
    ring

/-! ### Sector grouping -/

theorem sectorFold_not_pos (values : List (String × JSNum)) (total : JSNum)
    (h : jGt0 total = false) : sectorFold values total = [] := by
  simp [sectorFold, h]

theorem sectorFold_core (values : List (String × JSNum)) (hvp : ValsPos values) :
    ∀ acc, ValsPos acc →
      ValsPos (values.foldl
        (fun m p =>
          if jGt0 p.2 then
            mapSet m (mapAssetToSector p.1) (jAdd (getOrZero m (mapAssetToSector p.1)) p.2)
          else m) acc) ∧
      qSum (values.foldl
        (fun m p =>
          if jGt0 p.2 then
            mapSet m (mapAssetToSector p.1) (jAdd (getOrZero m (mapAssetToSector p.1)) p.2)
          else m) acc) = qSum acc + qSum values := by
  induction values with
  | nil =>
      intro acc hacc
      exact ⟨hacc, by simp [qSum]⟩
  | cons p rest ih =>
      intro acc hacc
      have hrest : ValsPos rest := fun x hx => hvp x (List.mem_cons_of_mem _ hx)
      obtain ⟨q, hq, hqp⟩ := hvp p (List.mem_cons_self _ _)
      have hguard : jGt0 p.2 = true := by simp [hq, jGt0_num, hqp]
      obtain ⟨g, hg, hgnn⟩ := getOrZero_pos acc (mapAssetToSector p.1) hacc
      have hstep : (if jGt0 p.2 then
          mapSet acc (mapAssetToSector p.1)
            (jAdd (getOrZero acc (mapAssetToSector p.1)) p.2)
          else acc) =
          mapSet acc (mapAssetToSector p.1) (.num (g + q)) := by
        rw [if_pos hguard, hg, hq, jAdd_num]
      have hacc' : ValsPos (mapSet acc (mapAssetToSector p.1) (.num (g + q))) :=
        ValsPos_mapSet _ _ _ hacc (by linarith)
      have hsum' : qSum (mapSet acc (mapAssetToSector p.1) (.num (g + q))) =
          qSum acc + q := by
        rw [qSum_mapSet _ _ _ hacc.valsNum, hg]
        simp only [qOf_num]
        ring
      obtain ⟨ihv, ihs⟩ := ih hrest _ hacc'
      rw [List.foldl_cons, hstep]
      refine ⟨ihv, ?_⟩
      rw [ihs, hsum']
      simp only [qSum, List.map_cons, List.sum_cons, hq, qOf_num]
      ring

theorem sectorFold_pos (values : List (String × JSNum)) (T : ℚ)
    (hvp : ValsPos values) (hT : 0 < T) :
    ValsPos (sectorFold values (.num T)) ∧
      qSum (sectorFold values (.num T)) = qSum values := by
  have hguard : jGt0 (JSNum.num T) = true := by simp [jGt0_num, hT]
  have h := sectorFold_core values hvp [] (by intro p hp; simp at hp)
  constructor
  · show ValsPos (if jGt0 (JSNum.num T) then _ else [])
    rw [if_pos hguard]
    exact h.1
  · show qSum (if jGt0 (JSNum.num T) then _ else []) = _
    rw [if_pos hguard, h.2]
    simp [qSum]

/-! ### What `calculateValues` computes -/

theorem ite_jGt0_num (q : ℚ) (hq : 0 ≤ q) :
    (if jGt0 (.num q) then JSNum.num q else .num 0) = .num q := by
  by_cases h : 0 < q
  · rw [if_pos (by simp [jGt0_num, h])]
  · rw [if_neg (by simp [jGt0_num, h]), num_eq_num]
    linarith

theorem calculateValues_ok (data : PortfolioApiData) : CVSpec data := by
  have A := aggregateAll_ok data
  have hS : procS data = (aggregateAll data).2.1 := rfl
  have hM : procM data = (aggregateAll data).2.2.1 := rfl
  have hF : procF data = (aggregateAll data).2.2.2 := rfl
  have hokAll : ∀ h ∈ procAll data, HOK h := by
    intro h hh
    rcases List.mem_append.mp hh with hh | hh
    · rcases List.mem_append.mp hh with hh | hh
      · exact A.hokS h (hS ▸ hh)
      · exact A.hokM h (hM ▸ hh)
    · exact A.hokF h (hF ▸ hh)
  have hvS := A.spotVal
  have hvM := A.marginVal
  have hvF := A.futuresVal
  rw [← hS] at hvS
  rw [← hM] at hvM
  rw [← hF] at hvF
  have htotJ : (calculateValues data).1.totalValue = .num (calcTotal data) := by
    show jAdd (jAdd (aggregateAll data).1.totalSpotValue
      (aggregateAll data).1.totalMarginValue) (aggregateAll data).1.totalFuturesValue = _
    rw [A.spotVal, A.marginVal, A.futuresVal, jAdd_num, jAdd_num, ← hS, ← hM, ← hF]
    rfl
  have htwc := A.twcVal
  have htvwc := A.tvwcVal
  rw [← hS, ← hM, ← hF] at htwc htvwc
  have havg : (calculateValues data).1.averageChange =
      if 0 < sumW (procAll data) then
        .num (sumWC (procAll data) / sumW (procAll data))
      else .num 0 := by
    show (if jGt0 (aggregateAll data).1.totalValueWithChange then
        jDiv (aggregateAll data).1.totalWeightedChange
          (aggregateAll data).1.totalValueWithChange
      else .num 0) = _
    rw [htwc, htvwc]
    show (if jGt0 (.num (sumW (procAll data))) then _ else _) = _
    rw [jGt0_num]
    by_cases hp : 0 < sumW (procAll data)
    · rw [if_pos (by simp [hp]), if_pos hp]
      have hne : sumW (procS data ++ procM data ++ procF data) ≠ 0 := by
        simpa [procAll] using ne_of_gt hp
      simp only [jDiv, if_neg hne]
      rfl
    · rw [if_neg (by simp [hp]), if_neg hp]
  -- the rational total and the asset-value map
  have hqsum : qSum (aggregateAll data).1.assetValues = calcTotal data := by
    rw [A.qSumVals, ← hS, ← hM, ← hF]
    rfl
  have hvp : ValsPos (aggregateAll data).1.assetValues := A.stok.valsPos
  have htotexpr : (calculateValues data).1.totalValue =
      jAdd (jAdd (aggregateAll data).1.totalSpotValue
        (aggregateAll data).1.totalMarginValue)
        (aggregateAll data).1.totalFuturesValue := rfl
  have htotnum : jAdd (jAdd (aggregateAll data).1.totalSpotValue
      (aggregateAll data).1.totalMarginValue) (aggregateAll data).1.totalFuturesValue =
      .num (calcTotal data) := htotexpr ▸ htotJ
  have hallocExpr : (calculateValues data).1.assetAllocation =
      sortByValueDesc (buildAllocationEntries (aggregateAll data).1.assetValues
        (.num (calcTotal data))) := by
    show sortByValueDesc (buildAllocationEntries (aggregateAll data).1.assetValues
      (jAdd (jAdd (aggregateAll data).1.totalSpotValue
        (aggregateAll data).1.totalMarginValue)
        (aggregateAll data).1.totalFuturesValue)) = _
    rw [htotnum]
  have hsectorExpr : (calculateValues data).1.sectorAllocation =
      sortByValueDesc (buildAllocationEntries
        (sectorFold (aggregateAll data).1.assetValues (.num (calcTotal data)))
        (.num (calcTotal data))) := by
    show sortByValueDesc (buildAllocationEntries
      (sectorFold (aggregateAll data).1.assetValues
        (jAdd (jAdd (aggregateAll data).1.totalSpotValue
          (aggregateAll data).1.totalMarginValue)
          (aggregateAll data).1.totalFuturesValue))
      (jAdd (jAdd (aggregateAll data).1.totalSpotValue
        (aggregateAll data).1.totalMarginValue)
        (aggregateAll data).1.totalFuturesValue)) = _
    rw [htotnum]
  refine ⟨hokAll, hvS, hvM, hvF, htotJ, havg, ?_, ?_, ?_, ?_, ?_, ?_, ?_, ?_⟩
  · -- allocMem
    intro e he
    rw [hallocExpr] at he
    rw [sortByValueDesc_mem] at he
    by_cases hp : 0 < calcTotal data
    · exact allocation_mem_shape _ _ hvp hp e he
    · rw [buildAllocation_not_pos _ _ (by simp [jGt0_num, hp])] at he
      simp at he
  · -- allocValSum
    intro hp
    rw [hallocExpr, sortByValueDesc_map_sum,
      buildAllocation_pos _ _ hvp hp]
    exact (allocation_entry_sums _ _ hvp hp).1.trans hqsum
  · -- allocPercSum
    intro hp
    rw [hallocExpr, sortByValueDesc_map_sum,
      buildAllocation_pos _ _ hvp hp]
    rw [(allocation_entry_sums _ _ hvp hp).2, hqsum]
    rw [mul_comm]
    exact div_mul_cancel₀ 100 (ne_of_gt hp)
  · -- allocSorted
    rw [hallocExpr]
    exact sortByValueDesc_sorted _
  · -- allocEmpty
    intro hp
    rw [hallocExpr, buildAllocation_not_pos _ _ (by simp [jGt0_num, hp])]
    simp [sortByValueDesc]
  · -- sectorMem
    intro e he
    rw [hsectorExpr, sortByValueDesc_mem] at he
    by_cases hp : 0 < calcTotal data
    · exact allocation_mem_shape _ _ (sectorFold_pos _ _ hvp hp).1 hp e he
    · rw [buildAllocation_not_pos _ _ (by simp [jGt0_num, hp])] at he
      simp at he
  · -- sectorValSum
    intro hp
    rw [hsectorExpr, sortByValueDesc_map_sum,
      buildAllocation_pos _ _ (sectorFold_pos _ _ hvp hp).1 hp]
    exact (allocation_entry_sums _ _ (sectorFold_pos _ _ hvp hp).1 hp).1.trans
      ((sectorFold_pos _ _ hvp hp).2.trans hqsum)
  · -- sectorEmpty
    intro hp
    rw [hsectorExpr, buildAllocation_not_pos _ _ (by simp [jGt0_num, hp])]
    simp [sortByValueDesc]

theorem validated_ok (data : PortfolioApiData) (now : String) : VDSpec data now := by
  have CV := calculateValues_ok data
  have hokS : ∀ h ∈ procS data, HOK h := fun h hh =>
    CV.hokAll h (List.mem_append_left _ (List.mem_append_left _ hh))
  have hokM : ∀ h ∈ procM data, HOK h := fun h hh =>
    CV.hokAll h (List.mem_append_left _ (List.mem_append_right _ hh))
  have hokF : ∀ h ∈ procF data, HOK h := fun h hh =>
    CV.hokAll h (List.mem_append_right _ hh)
  have hnnS := sumVal_nonneg _ hokS
  have hnnM := sumVal_nonneg _ hokM
  have hnnF := sumVal_nonneg _ hokF
  have hfin : (calculateValues data).1.averageChange.isFinite = true := by
    rw [CV.averageChange]
    split <;> rfl
  refine ⟨?_, ?_, ?_, ?_, ?_, rfl, rfl⟩
  · show (if jGt0 (calculateValues data).1.totalValue then (calculateValues data).1.totalValue
      else .num 0) = _
    rw [CV.totalValue]
    exact ite_jGt0_num _ (by unfold calcTotal; linarith)
  · show (if jGt0 (calculateValues data).1.spotValue then (calculateValues data).1.spotValue
      else .num 0) = _
    rw [CV.spotValue]
    exact ite_jGt0_num _ hnnS
  · show (if jGt0 (calculateValues data).1.marginValue then (calculateValues data).1.marginValue
      else .num 0) = _
    rw [CV.marginValue]
    exact ite_jGt0_num _ hnnM
  · show (if jGt0 (calculateValues data).1.futuresValue then (calculateValues data).1.futuresValue
      else .num 0) = _
    rw [CV.futuresValue]
    exact ite_jGt0_num _ hnnF
  · show (if (calculateValues data).1.averageChange.isFinite then
        (calculateValues data).1.averageChange
      else _) = _
    rw [if_pos hfin]

theorem seg_sm : (Segment.spot = Segment.margin) ↔ False :=
  ⟨fun h => Segment.noConfusion h, False.elim⟩

theorem seg_sf : (Segment.spot = Segment.futures) ↔ False :=
  ⟨fun h => Segment.noConfusion h, False.elim⟩

theorem seg_ms : (Segment.margin = Segment.spot) ↔ False :=
  ⟨fun h => Segment.noConfusion h, False.elim⟩

theorem seg_mf : (Segment.margin = Segment.futures) ↔ False :=
  ⟨fun h => Segment.noConfusion h, False.elim⟩

theorem seg_fs : (Segment.futures = Segment.spot) ↔ False :=
  ⟨fun h => Segment.noConfusion h, False.elim⟩

theorem seg_fm : (Segment.futures = Segment.margin) ↔ False :=
  ⟨fun h => Segment.noConfusion h, False.elim⟩

/-! ### The claims -/

/-- C1: for every input holding-record set, every asset-allocation entry's
percentage equals `100 * value / total_value`; the percentages sum to 100
(exactly, in this exact-arithmetic model) whenever `total_value > 0`; the
entries are sorted descending by value; and the allocation is empty when
`total_value = 0`. -/
theorem C1_asset_allocation (data : PortfolioApiData) :
    (∀ e ∈ (calculateValues data).1.assetAllocation,
      ∃ v t, e.value = .num v ∧ (calculateValues data).1.totalValue = .num t ∧
        e.percentage = .num (100 * v / t)) ∧
    (jGt0 (calculateValues data).1.totalValue = true →
      (((calculateValues data).1.assetAllocation).map (fun e => qOf e.percentage)).sum
        = 100) ∧
    ((calculateValues data).1.assetAllocation).Pairwise
      (fun a b => qOf b.value ≤ qOf a.value) ∧
    ((calculateValues data).1.totalValue = .num 0 →
      (calculateValues data).1.assetAllocation = []) := by
  have CV := calculateValues_ok data
  refine ⟨?_, ?_, CV.allocSorted, ?_⟩
  · intro e he
    obtain ⟨v, hv, _, hperc⟩ := CV.allocMem e he
    exact ⟨v, calcTotal data, hv, CV.totalValue, hperc⟩
  · intro hgt
    apply CV.allocPercSum
    rw [CV.totalValue, jGt0_num] at hgt
    simpa using hgt
  · intro h0
    apply CV.allocEmpty
    rw [CV.totalValue, num_eq_num] at h0
    rw [h0]
    simp

/-- C1 witness: on the specification's worked example the total is positive
and the percentages sum to 100; on an empty payload the total is 0 and the
allocation is empty. -/
theorem C1_asset_allocation_witness :
    (jGt0 (calculateValues specExampleData).1.totalValue = true ∧
      (((calculateValues specExampleData).1.assetAllocation).map
        (fun e => qOf e.percentage)).sum = 100) ∧
    ((calculateValues emptyPayload).1.totalValue = .num 0 ∧
      (calculateValues emptyPayload).1.assetAllocation = []) := by
  have h1 : jGt0 (calculateValues specExampleData).1.totalValue = true := by
    norm_num [calculateValues, aggregateAll, specExampleData, mkPayload, mkSpotRec,
      spotStep, includeRecord, stepState, includedHolding, spotCandidate, keyAssetPart,
      numberOf, jOr, jAdd, jMul, jGt0, JSNum.isFinite, initialAggState, setAdd, mapSet,
      mapGet, getOrZero, num_ne_nan, num_eq_num, seg_sm, seg_sf, seg_ms, seg_mf, seg_fs,
      seg_fm]
  have h0 : (calculateValues emptyPayload).1.totalValue = .num 0 := by
    norm_num [calculateValues, aggregateAll, emptyPayload, initialAggState, jAdd,
      num_eq_num]
  exact ⟨⟨h1, (C1_asset_allocation specExampleData).2.1 h1⟩,
    ⟨h0, (C1_asset_allocation emptyPayload).2.2.2 h0⟩⟩

/-- C10: every snapshot produced by a successful aggregation satisfies
`total_value = spot_value + margin_value + futures_value`, and the values
of the asset-allocation entries (and of the sector-allocation entries) sum
exactly to the total value. -/
theorem C10_value_partition (data : PortfolioApiData) (now : String) :
    ∃ s m f : ℚ,
      (validatedData now data (calculateValues data).1).spot_value = .num s ∧
      (validatedData now data (calculateValues data).1).margin_value = .num m ∧
      (validatedData now data (calculateValues data).1).futures_value = .num f ∧
      (validatedData now data (calculateValues data).1).total_value = .num (s + m + f) ∧
      ((((validatedData now data (calculateValues data).1).asset_allocation).getD []).map
        (fun e => qOf e.value)).sum = s + m + f ∧
      ((((validatedData now data (calculateValues data).1).sector_allocation).getD []).map
        (fun e => qOf e.value)).sum = s + m + f := by
  have CV := calculateValues_ok data
  have VD := validated_ok data now
  refine ⟨sumVal (procS data), sumVal (procM data), sumVal (procF data),
    VD.vSpot, VD.vMargin, VD.vFutures, VD.vTotal, ?_, ?_⟩
  · rw [VD.vAlloc]
    by_cases hp : 0 < calcTotal data
    · simp only [Option.getD_some]
      exact CV.allocValSum hp
    · have := CV.allocEmpty hp
      rw [this]
      have : calcTotal data = 0 := by
        have hokS : ∀ h ∈ procS data, HOK h := fun h hh =>
          CV.hokAll h (List.mem_append_left _ (List.mem_append_left _ hh))
        have hokM : ∀ h ∈ procM data, HOK h := fun h hh =>
          CV.hokAll h (List.mem_append_left _ (List.mem_append_right _ hh))
        have hokF : ∀ h ∈ procF data, HOK h := fun h hh =>
          CV.hokAll h (List.mem_append_right _ hh)
        have h1 := sumVal_nonneg _ hokS
        have h2 := sumVal_nonneg _ hokM
        have h3 := sumVal_nonneg _ hokF
        unfold calcTotal at *
        linarith
      simp only [Option.getD_some, List.map_nil, List.sum_nil]
      unfold calcTotal at this
      linarith
  · rw [VD.vSector]
    by_cases hp : 0 < calcTotal data
    · simp only [Option.getD_some]
      exact CV.sectorValSum hp
    · have := CV.sectorEmpty hp
      rw [this]
      have : calcTotal data = 0 := by
        have hokS : ∀ h ∈ procS data, HOK h := fun h hh =>
          CV.hokAll h (List.mem_append_left _ (List.mem_append_left _ hh))
        have hokM : ∀ h ∈ procM data, HOK h := fun h hh =>
          CV.hokAll h (List.mem_append_left _ (List.mem_append_right _ hh))
        have hokF : ∀ h ∈ procF data, HOK h := fun h hh =>
          CV.hokAll h (List.mem_append_right _ hh)
        have h1 := sumVal_nonneg _ hokS
        have h2 := sumVal_nonneg _ hokM
        have h3 := sumVal_nonneg _ hokF
        unfold calcTotal at *
        linarith
      simp only [Option.getD_some, List.map_nil, List.sum_nil]
      unfold calcTotal at this
      linarith

/-- C3: when every included holding carries the same finite `change_24h`
value `c` and at least one holding is included, the snapshot's
portfolio-level `change_24h` equals `c`, regardless of the holdings'
amounts and prices. -/
theorem C3_uniform_change (data : PortfolioApiData) (now : String) (c : ℚ)
    (hall : ∀ h ∈ procAll data, h.change_24h = some (.num c))
    (hne : procAll data ≠ []) :
    (validatedData now data (calculateValues data).1).change_24h = .num c := by
  have CV := calculateValues_ok data
  have VD := validated_ok data now
  obtain ⟨hwc, hw⟩ := sums_of_const_change (procAll data) c hall
  have hpos : 0 < sumW (procAll data) := by
    rw [hw]
    exact sumVal_pos _ CV.hokAll hne
  rw [VD.vChange, CV.averageChange, if_pos hpos, hwc, hw, num_eq_num]
  exact mul_div_cancel_right₀ c (by rw [← hw]; exact ne_of_gt hpos)

/-- C3 witness: two holdings with different amounts and prices, both with
`change_24h = 2.3`, give a snapshot `change_24h` of exactly 2.3. -/
theorem C3_uniform_change_witness :
    (validatedData "12:00:00 PM" constChangePayload
      (calculateValues constChangePayload).1).change_24h = .num (23 / 10) := by
  apply C3_uniform_change
  · intro h hh
    revert hh
    norm_num [procAll, procS, procM, procF, calculateValues, aggregateAll,
      constChangePayload, mkPayload, mkSpotRec, spotStep, includeRecord, stepState,
      includedHolding, spotCandidate, keyAssetPart, numberOf, jOr, jAdd, jMul, jGt0,
      JSNum.isFinite, initialAggState, setAdd, mapSet, mapGet, getOrZero, num_ne_nan,
      num_eq_num, seg_sm, seg_sf, seg_ms, seg_mf, seg_fs, seg_fm]
    intro hh
    rcases hh with hh | hh <;> rw [hh]
  · norm_num [procAll, procS, procM, procF, calculateValues, aggregateAll,
      constChangePayload, mkPayload, mkSpotRec, spotStep, includeRecord, stepState,
      includedHolding, spotCandidate, keyAssetPart, numberOf, jOr, jAdd, jMul, jGt0,
      JSNum.isFinite, initialAggState, setAdd, mapSet, mapGet, getOrZero, num_ne_nan,
      num_eq_num, seg_sm, seg_sf, seg_ms, seg_mf, seg_fs, seg_fm]
    exact List.cons_ne_nil _ _

/-- C2 counterexample: one included holding without `change_24h` while the
raw payload carries the finite top-level change 5.  The claim says the
snapshot's `change_24h` is then 5; the code produces 0, because the
weighted average is the (finite) number 0 when no holding carries a change,
so the fallback branch of `validatedData` is unreachable. -/
theorem C2_counterexample :
    (∀ h ∈ procAll noChangePayload, h.change_24h = none) ∧
    noChangePayload.change_24h = some 5 ∧
    procAll noChangePayload ≠ [] ∧
    (validatedData "12:00:00 PM" noChangePayload
      (calculateValues noChangePayload).1).change_24h = .num 0 ∧
    (validatedData "12:00:00 PM" noChangePayload
      (calculateValues noChangePayload).1).change_24h ≠ .num 5 := by
  have hmem : ∀ h ∈ procAll noChangePayload, h.change_24h = none := by
    intro h hh
    revert hh
    norm_num [procAll, procS, procM, procF, calculateValues, aggregateAll,
      noChangePayload, mkPayload, mkSpotRec, spotStep, includeRecord, stepState,
      includedHolding, spotCandidate, keyAssetPart, numberOf, jOr, jAdd, jMul, jGt0,
      JSNum.isFinite, initialAggState, setAdd, mapSet, mapGet, getOrZero, num_ne_nan,
      num_eq_num, seg_sm, seg_sf, seg_ms, seg_mf, seg_fs, seg_fm]
    intro hh
    rw [hh]
  have hch : (validatedData "12:00:00 PM" noChangePayload
      (calculateValues noChangePayload).1).change_24h = .num 0 := by
    norm_num [validatedData, procAll, procS, procM, procF, calculateValues, aggregateAll,
      noChangePayload, mkPayload, mkSpotRec, spotStep, includeRecord, stepState,
      includedHolding, spotCandidate, keyAssetPart, numberOf, jOr, jAdd, jMul, jDiv, jGt0,
      JSNum.isFinite, initialAggState, setAdd, mapSet, mapGet, getOrZero, num_ne_nan,
      num_eq_num, seg_sm, seg_sf, seg_ms, seg_mf, seg_fs, seg_fm]
  refine ⟨hmem, rfl, ?_, hch, ?_⟩
  · revert hmem
    norm_num [procAll, procS, procM, procF, calculateValues, aggregateAll,
      noChangePayload, mkPayload, mkSpotRec, spotStep, includeRecord, stepState,
      includedHolding, spotCandidate, keyAssetPart, numberOf, jOr, jAdd, jMul, jGt0,
      JSNum.isFinite, initialAggState, setAdd, mapSet, mapGet, getOrZero, num_ne_nan,
      num_eq_num, seg_sm, seg_sf, seg_ms, seg_mf, seg_fs, seg_fm]
  · rw [hch]
    rw [Ne, num_eq_num]
    norm_num

/-- C2 as amended: when no included holding carries a `change_24h`, the
snapshot's portfolio-level `change_24h` is 0 regardless of the raw API
top-level value (the fallback to that value is unreachable); when at least
one included holding carries a finite `change_24h`, it is the value-weighted
mean over exactly the change-carrying holdings. -/
theorem C2_weighted_change (data : PortfolioApiData) (now : String) :
    ((∀ h ∈ procAll data, h.change_24h = none) →
      (validatedData now data (calculateValues data).1).change_24h = .num 0) ∧
    ((∃ x ∈ procAll data, ∃ c, x.change_24h = some c) →
      (validatedData now data (calculateValues data).1).change_24h =
        .num (sumWC (procAll data) / sumW (procAll data))) := by
  have CV := calculateValues_ok data
  have VD := validated_ok data now
  constructor
  · intro hnone
    have h0 : sumW (procAll data) = 0 := sumW_zero_of_none _ hnone
    rw [VD.vChange, CV.averageChange, h0]
    simp
  · rintro ⟨x, hx, c, hc⟩
    have hpos : 0 < sumW (procAll data) := sumW_pos_of_mem _ CV.hokAll x hx c hc
    rw [VD.vChange, CV.averageChange, if_pos hpos]

/-- C2 witness: the no-change payload yields `change_24h = 0`, and on the
specification's worked example the weighted mean is
`(10·50000 − 5·4000) / 54000 = 80/9`. -/
theorem C2_weighted_change_witness :
    (validatedData "12:00:01 PM" noChangePayload
      (calculateValues noChangePayload).1).change_24h = .num 0 ∧
    (validatedData "12:00:01 PM" specExampleData
      (calculateValues specExampleData).1).change_24h = .num (80 / 9) := by
  constructor
  · apply (C2_weighted_change noChangePayload "12:00:01 PM").1
    intro h hh
    revert hh
    norm_num [procAll, procS, procM, procF, calculateValues, aggregateAll,
      noChangePayload, mkPayload, mkSpotRec, spotStep, includeRecord, stepState,
      includedHolding, spotCandidate, keyAssetPart, numberOf, jOr, jAdd, jMul, jGt0,
      JSNum.isFinite, initialAggState, setAdd, mapSet, mapGet, getOrZero, num_ne_nan,
      num_eq_num, seg_sm, seg_sf, seg_ms, seg_mf, seg_fs, seg_fm]
    intro hh
    rw [hh]
  · have hval : .num (sumWC (procAll specExampleData) / sumW (procAll specExampleData)) =
        JSNum.num (80 / 9) := by
      norm_num [procAll, procS, procM, procF, calculateValues, aggregateAll,
        specExampleData, mkPayload, mkSpotRec, spotStep, includeRecord, stepState,
        includedHolding, spotCandidate, keyAssetPart, numberOf, jOr, jAdd, jMul, jGt0,
        JSNum.isFinite, initialAggState, setAdd, mapSet, mapGet, getOrZero, num_ne_nan,
        num_eq_num, seg_sm, seg_sf, seg_ms, seg_mf, seg_fs, seg_fm, sumWC, sumW, wChange,
        wWeight, hval, qOf]
    rw [← hval]
    apply (C2_weighted_change specExampleData "12:00:01 PM").2
    refine ⟨⟨"BTC", .num 1, .num 50000, .num 50000, some (.num 10), none, none, none,
      none, none⟩, ?_, .num 10, rfl⟩
    norm_num [procAll, procS, procM, procF, calculateValues, aggregateAll,
      specExampleData, mkPayload, mkSpotRec, spotStep, includeRecord, stepState,
      includedHolding, spotCandidate, keyAssetPart, numberOf, jOr, jAdd, jMul, jGt0,
      JSNum.isFinite, initialAggState, setAdd, mapSet, mapGet, getOrZero, num_ne_nan,
      num_eq_num, seg_sm, seg_sf, seg_ms, seg_mf, seg_fs, seg_fm]
    decide

theorem cv_totalValue (data : PortfolioApiData) :
    (calculateValues data).1.totalValue =
      jAdd (jAdd (aggregateAll data).1.totalSpotValue
        (aggregateAll data).1.totalMarginValue)
        (aggregateAll data).1.totalFuturesValue := rfl

theorem cv_spotValue (data : PortfolioApiData) :
    (calculateValues data).1.spotValue = (aggregateAll data).1.totalSpotValue := rfl

theorem cv_marginValue (data : PortfolioApiData) :
    (calculateValues data).1.marginValue = (aggregateAll data).1.totalMarginValue := rfl

theorem cv_futuresValue (data : PortfolioApiData) :
    (calculateValues data).1.futuresValue = (aggregateAll data).1.totalFuturesValue := rfl

theorem cv_uniqueAssetCount (data : PortfolioApiData) :
    (calculateValues data).1.uniqueAssetCount =
      (aggregateAll data).1.uniqueAssets.length := rfl

theorem cv_averageChange (data : PortfolioApiData) :
    (calculateValues data).1.averageChange =
      (if jGt0 (aggregateAll data).1.totalValueWithChange then
        jDiv (aggregateAll data).1.totalWeightedChange
          (aggregateAll data).1.totalValueWithChange
      else .num 0) := rfl

theorem cv_assetAllocation (data : PortfolioApiData) :
    (calculateValues data).1.assetAllocation =
      sortByValueDesc (buildAllocationEntries (aggregateAll data).1.assetValues
        (jAdd (jAdd (aggregateAll data).1.totalSpotValue
          (aggregateAll data).1.totalMarginValue)
          (aggregateAll data).1.totalFuturesValue)) := rfl

theorem cv_sectorAllocation (data : PortfolioApiData) :
    (calculateValues data).1.sectorAllocation =
      sortByValueDesc (buildAllocationEntries
        (sectorFold (aggregateAll data).1.assetValues
          (jAdd (jAdd (aggregateAll data).1.totalSpotValue
            (aggregateAll data).1.totalMarginValue)
            (aggregateAll data).1.totalFuturesValue))
        (jAdd (jAdd (aggregateAll data).1.totalSpotValue
          (aggregateAll data).1.totalMarginValue)
          (aggregateAll data).1.totalFuturesValue)) := rfl

theorem cv_processed (data : PortfolioApiData) :
    (calculateValues data).2 = (aggregateAll data).2 := rfl

/-- C8: a record that fails the inclusion guard contributes nothing — the
aggregation of a spot list with such a record inserted anywhere equals the
aggregation without it, in every output except the raw coin counts — and no
output field of the aggregation or of the validated snapshot is ever `NaN`
(all are finite rationals). -/
theorem C8_excluded_record
    (margin : Option (List (String × MarginHoldingData)))
    (futures : Option (List (String × FuturesHoldingData))) (tv ch : Option ℚ)
    (pre post : List (String × SpotHoldingData)) (k : String) (r : SpotHoldingData)
    (hbad : includedHolding (spotCandidate (k, r)) = false) :
    ((calculateValues ⟨some (pre ++ (k, r) :: post), margin, futures, tv, ch⟩).1.totalValue =
      (calculateValues ⟨some (pre ++ post), margin, futures, tv, ch⟩).1.totalValue ∧
    (calculateValues ⟨some (pre ++ (k, r) :: post), margin, futures, tv, ch⟩).1.spotValue =
      (calculateValues ⟨some (pre ++ post), margin, futures, tv, ch⟩).1.spotValue ∧
    (calculateValues ⟨some (pre ++ (k, r) :: post), margin, futures, tv, ch⟩).1.marginValue =
      (calculateValues ⟨some (pre ++ post), margin, futures, tv, ch⟩).1.marginValue ∧
    (calculateValues ⟨some (pre ++ (k, r) :: post), margin, futures, tv, ch⟩).1.futuresValue =
      (calculateValues ⟨some (pre ++ post), margin, futures, tv, ch⟩).1.futuresValue ∧
    (calculateValues
        ⟨some (pre ++ (k, r) :: post), margin, futures, tv, ch⟩).1.uniqueAssetCount =
      (calculateValues ⟨some (pre ++ post), margin, futures, tv, ch⟩).1.uniqueAssetCount ∧
    (calculateValues
        ⟨some (pre ++ (k, r) :: post), margin, futures, tv, ch⟩).1.assetAllocation =
      (calculateValues ⟨some (pre ++ post), margin, futures, tv, ch⟩).1.assetAllocation ∧
    (calculateValues
        ⟨some (pre ++ (k, r) :: post), margin, futures, tv, ch⟩).1.sectorAllocation =
      (calculateValues ⟨some (pre ++ post), margin, futures, tv, ch⟩).1.sectorAllocation ∧
    (calculateValues
        ⟨some (pre ++ (k, r) :: post), margin, futures, tv, ch⟩).1.averageChange =
      (calculateValues ⟨some (pre ++ post), margin, futures, tv, ch⟩).1.averageChange ∧
    (calculateValues ⟨some (pre ++ (k, r) :: post), margin, futures, tv, ch⟩).2 =
      (calculateValues ⟨some (pre ++ post), margin, futures, tv, ch⟩).2) ∧
    (∀ (data : PortfolioApiData) (now : String),
      (calculateValues data).1.totalValue ≠ .nan ∧
      (calculateValues data).1.spotValue ≠ .nan ∧
      (calculateValues data).1.marginValue ≠ .nan ∧
      (calculateValues data).1.futuresValue ≠ .nan ∧
      (calculateValues data).1.averageChange ≠ .nan ∧
      (∀ e ∈ (calculateValues data).1.assetAllocation,
        e.value ≠ .nan ∧ e.percentage ≠ .nan) ∧
      (∀ e ∈ (calculateValues data).1.sectorAllocation,
        e.value ≠ .nan ∧ e.percentage ≠ .nan) ∧
      (validatedData now data (calculateValues data).1).total_value ≠ .nan ∧
      (validatedData now data (calculateValues data).1).change_24h ≠ .nan ∧
      (validatedData now data (calculateValues data).1).spot_value ≠ .nan ∧
      (validatedData now data (calculateValues data).1).margin_value ≠ .nan ∧
      (validatedData now data (calculateValues data).1).futures_value ≠ .nan) := by
  constructor
  · have hskip : ∀ acc : AggState × List Holding, spotStep acc (k, r) = acc := fun acc =>
      includeRecord_skip .spot (spotCandidate (k, r)) acc hbad
    have hfold : ∀ init : AggState × List Holding,
        List.foldl spotStep init (pre ++ (k, r) :: post) =
        List.foldl spotStep init (pre ++ post) := by
      intro init
      rw [List.foldl_append, List.foldl_append, List.foldl_cons, hskip]
    have hagg : aggregateAll ⟨some (pre ++ (k, r) :: post), margin, futures, tv, ch⟩ =
        aggregateAll ⟨some (pre ++ post), margin, futures, tv, ch⟩ := by
      unfold aggregateAll
      simp only [Option.getD_some]
      rw [hfold]
    refine ⟨?_, ?_, ?_, ?_, ?_, ?_, ?_, ?_, ?_⟩
    · rw [cv_totalValue, cv_totalValue, hagg]
    · rw [cv_spotValue, cv_spotValue, hagg]
    · rw [cv_marginValue, cv_marginValue, hagg]
    · rw [cv_futuresValue, cv_futuresValue, hagg]
    · rw [cv_uniqueAssetCount, cv_uniqueAssetCount, hagg]
    · rw [cv_assetAllocation, cv_assetAllocation, hagg]
    · rw [cv_sectorAllocation, cv_sectorAllocation, hagg]
    · rw [cv_averageChange, cv_averageChange, hagg]
    · rw [cv_processed, cv_processed, hagg]
  · intro data now
    have CV := calculateValues_ok data
    have VD := validated_ok data now
    refine ⟨CV.totalValue ▸ num_ne_nan _, CV.spotValue ▸ num_ne_nan _,
      CV.marginValue ▸ num_ne_nan _, CV.futuresValue ▸ num_ne_nan _, ?_, ?_, ?_,
      VD.vTotal ▸ num_ne_nan _, ?_, VD.vSpot ▸ num_ne_nan _, VD.vMargin ▸ num_ne_nan _,
      VD.vFutures ▸ num_ne_nan _⟩
    · rw [CV.averageChange]
      split <;> exact num_ne_nan _
    · intro e he
      obtain ⟨v, hv, _, hp⟩ := CV.allocMem e he
      exact ⟨hv ▸ num_ne_nan _, hp ▸ num_ne_nan _⟩
    · intro e he
      obtain ⟨v, hv, _, hp⟩ := CV.sectorMem e he
      exact ⟨hv ▸ num_ne_nan _, hp ▸ num_ne_nan _⟩
    · rw [VD.vChange, CV.averageChange]
      split <;> exact num_ne_nan _

/-- C8 witness: the specification's malformed record
`{amount: -1, price_usd: 100, total_usd: -100}` and an `amount = 0` record
both fail the guard, and inserting either after a good BTC record changes
neither the totals nor the processed lists. -/
theorem C8_excluded_record_witness :
    includedHolding (spotCandidate ("XRP_spot", malformedSpotRec)) = false ∧
    includedHolding (spotCandidate ("ADA_spot", zeroAmountSpotRec)) = false ∧
    (calculateValues ⟨some ([("BTC_spot", goodSpotRec)] ++ ("XRP_spot", malformedSpotRec)
        :: []), none, none, none, none⟩).1.totalValue =
      (calculateValues ⟨some ([("BTC_spot", goodSpotRec)] ++ []), none, none, none,
        none⟩).1.totalValue ∧
    (calculateValues ⟨some ([("BTC_spot", goodSpotRec)] ++ ("XRP_spot", malformedSpotRec)
        :: []), none, none, none, none⟩).2 =
      (calculateValues ⟨some ([("BTC_spot", goodSpotRec)] ++ []), none, none, none,
        none⟩).2 ∧
    (calculateValues ⟨some ([] ++ ("ADA_spot", zeroAmountSpotRec) :: []), none, none, none,
        none⟩).1.totalValue =
      (calculateValues ⟨some ([] ++ []), none, none, none, none⟩).1.totalValue := by
  have h1 : includedHolding (spotCandidate ("XRP_spot", malformedSpotRec)) = false := by
    norm_num [includedHolding, spotCandidate, malformedSpotRec, mkSpotRec, keyAssetPart,
      numberOf, jOr, jMul, jGt0, JSNum.isFinite, num_ne_nan, num_eq_num]
  have h2 : includedHolding (spotCandidate ("ADA_spot", zeroAmountSpotRec)) = false := by
    norm_num [includedHolding, spotCandidate, zeroAmountSpotRec, mkSpotRec, keyAssetPart,
      numberOf, jOr, jMul, jGt0, JSNum.isFinite, num_ne_nan, num_eq_num]
  exact ⟨h1, h2,
    (C8_excluded_record none none none none [("BTC_spot", goodSpotRec)] [] _ _ h1).1.1,
    (C8_excluded_record none none none none [("BTC_spot", goodSpotRec)] [] _ _ h1).1.2.2.2.2.2.2.2.2,
    (C8_excluded_record none none none none [] [] _ _ h2).1.1⟩

/-- C7 as amended: a failed foreground fetch surfaces the error and leaves
storage untouched; the hardcoded fallback snapshot (with
`total_value = 34567.89`) and the fallback holdings are installed exactly
when the in-memory snapshot's `total_value` is 0 — regardless of whether
cached data had been loaded — and otherwise the snapshot and holdings are
left unchanged. -/
theorem C7_foreground_failure (now msg : String) (st : ComponentState)
    (storage : Storage) :
    (fetchPortfolioData now false (.failure msg) st storage).1.error = some msg ∧
    (fetchPortfolioData now false (.failure msg) st storage).2 = storage ∧
    (st.portfolioData.total_value = .num 0 →
      (fetchPortfolioData now false (.failure msg) st storage).1.portfolioData =
        fallbackPortfolioData now ∧
      (fetchPortfolioData now false (.failure msg) st storage).1.spotHoldings =
        fallbackSpotHoldings ∧
      (fetchPortfolioData now false (.failure msg) st storage).1.marginHoldings =
        fallbackMarginHoldings ∧
      (fetchPortfolioData now false (.failure msg) st storage).1.futuresHoldings =
        fallbackFuturesHoldings ∧
      (fallbackPortfolioData now).total_value = .num (3456789 / 100)) ∧
    (st.portfolioData.total_value ≠ .num 0 →
      (fetchPortfolioData now false (.failure msg) st storage).1.portfolioData =
        st.portfolioData ∧
      (fetchPortfolioData now false (.failure msg) st storage).1.spotHoldings =
        st.spotHoldings ∧
      (fetchPortfolioData now false (.failure msg) st storage).1.marginHoldings =
        st.marginHoldings ∧
      (fetchPortfolioData now false (.failure msg) st storage).1.futuresHoldings =
        st.futuresHoldings) := by
  by_cases h0 : st.portfolioData.total_value = .num 0
  · refine ⟨?_, ?_, fun _ => ⟨?_, ?_, ?_, ?_, rfl⟩, fun hne => absurd h0 hne⟩ <;>
      simp [fetchPortfolioData, finallyReset, h0]
  · refine ⟨?_, ?_, fun heq => absurd heq h0, fun _ => ⟨?_, ?_, ?_, ?_⟩⟩ <;>
      simp [fetchPortfolioData, finallyReset, h0]

/-- C7 witness: with no data yet (`total_value = 0`) the fallback snapshot
and holdings are installed; with a non-zero snapshot the failed foreground
fetch leaves the snapshot untouched. -/
theorem C7_foreground_failure_witness :
    ((initialComponentState "t0").portfolioData.total_value = .num 0 ∧
      (fetchPortfolioData "t1" false (.failure "boom") (initialComponentState "t0")
        emptyStorage).1.portfolioData = fallbackPortfolioData "t1" ∧
      (fallbackPortfolioData "t1").total_value = .num (3456789 / 100)) ∧
    (samplePortfolioData.total_value ≠ .num 0 ∧
      (fetchPortfolioData "t1" false (.failure "boom")
        { initialComponentState "t0" with portfolioData := samplePortfolioData }
        emptyStorage).1.portfolioData = samplePortfolioData) := by
  have h0 : (initialComponentState "t0").portfolioData.total_value = .num 0 := rfl
  have hne : samplePortfolioData.total_value ≠ .num 0 := by
    rw [samplePortfolioData]
    rw [Ne, num_eq_num]
    norm_num
  refine ⟨⟨h0, ?_, rfl⟩, ⟨hne, ?_⟩⟩
  · exact ((C7_foreground_failure "t1" "boom" (initialComponentState "t0")
      emptyStorage).2.2.1 h0).1
  · exact ((C7_foreground_failure "t1" "boom"
      { initialComponentState "t0" with portfolioData := samplePortfolioData }
      emptyStorage).2.2.2 hne).1

/-- C7 counterexample to the claim as stated: cached data exists (a cached
snapshot with `total_value = 0` was loaded), yet a failed foreground fetch
does not leave the existing snapshot unchanged — the fallback is installed,
because the code tests only `portfolioData.total_value === 0` and not
whether cached data was loaded. -/
theorem C7_counterexample :
    cachedZeroStorage.binance_portfolio_data ≠ none ∧
    (loadCachedData (fun s => s) cachedZeroStorage
      (initialComponentState "09:00:00 AM")).2 = true ∧
    cachedZeroState.portfolioData.total_value = .num 0 ∧
    (fetchPortfolioData "09:00:30 AM" false (.failure "network error") cachedZeroState
      cachedZeroStorage).1.portfolioData.total_value = .num (3456789 / 100) ∧
    (fetchPortfolioData "09:00:30 AM" false (.failure "network error") cachedZeroState
      cachedZeroStorage).1.portfolioData ≠ cachedZeroState.portfolioData := by
  have h0 : cachedZeroState.portfolioData.total_value = .num 0 := rfl
  have hfb : (fetchPortfolioData "09:00:30 AM" false (.failure "network error")
      cachedZeroState cachedZeroStorage).1.portfolioData = fallbackPortfolioData
      "09:00:30 AM" :=
    ((C7_foreground_failure "09:00:30 AM" "network error" cachedZeroState
      cachedZeroStorage).2.2.1 h0).1
  refine ⟨by simp [cachedZeroStorage], rfl, h0, ?_, ?_⟩
  · rw [hfb]
    rfl
  · rw [hfb]
    intro h
    have := congrArg PortfolioData.total_value h
    rw [h0] at this
    rw [fallbackPortfolioData] at this
    simp only [num_eq_num] at this
    norm_num at this

/-- C6 (evaluating the code at the failing input): a successful fetch from
the empty initial state installs the freshly processed holdings and the
fresh snapshot in memory and clears the error, and persists the fresh
snapshot — but persists the closure's render-time (pre-fetch) holdings
lists, here `[]`, instead of the freshly processed ones. -/
theorem C6_stale_cache_save :
    (fetchPortfolioData "t1" false (.success specExampleData)
      (initialComponentState "t0") emptyStorage).1.spotHoldings = procS specExampleData ∧
    (fetchPortfolioData "t1" false (.success specExampleData)
      (initialComponentState "t0") emptyStorage).1.marginHoldings =
        procM specExampleData ∧
    (fetchPortfolioData "t1" false (.success specExampleData)
      (initialComponentState "t0") emptyStorage).1.futuresHoldings =
        procF specExampleData ∧
    (fetchPortfolioData "t1" false (.success specExampleData)
      (initialComponentState "t0") emptyStorage).1.error = none ∧
    (fetchPortfolioData "t1" false (.success specExampleData)
      (initialComponentState "t0") emptyStorage).1.portfolioData =
        validatedData "t1" specExampleData (calculateValues specExampleData).1 ∧
    (fetchPortfolioData "t1" false (.success specExampleData)
      (initialComponentState "t0") emptyStorage).2.binance_portfolio_data =
        some (validatedData "t1" specExampleData (calculateValues specExampleData).1) ∧
    (fetchPortfolioData "t1" false (.success specExampleData)
      (initialComponentState "t0") emptyStorage).2.binance_spot_holdings = some [] ∧
    procS specExampleData ≠ [] := by
  refine ⟨rfl, rfl, rfl, rfl, rfl, rfl, rfl, ?_⟩
  norm_num [procS, calculateValues, aggregateAll, specExampleData, mkPayload, mkSpotRec,
    spotStep, includeRecord, stepState, includedHolding, spotCandidate, keyAssetPart,
    numberOf, jOr, jAdd, jMul, jGt0, JSNum.isFinite, initialAggState, setAdd, mapSet,
    mapGet, getOrZero, num_ne_nan, num_eq_num, seg_sm, seg_sf, seg_ms, seg_mf, seg_fs,
    seg_fm]
  exact List.cons_ne_nil _ _

/-- C5 counterexample to the claim as stated: the read path does not merely
suffix the stored `last_updated`; it re-parses it with the host `Date`
parser and re-renders it with `toLocaleTimeString` before appending
" (cached)".  Instantiating the host reformatting with its real behaviour
on a stored time-only string — mainstream engines parse it as an invalid
date, which ECMA-402 renders as `"Invalid Date"` — the loaded field is
`"Invalid Date (cached)"`, not the stored string with a suffix. -/
theorem C5_counterexample :
    (loadCachedData (fun _ => "Invalid Date")
      (saveDataToCache samplePortfolioData [] [] [])
      (initialComponentState "t")).1.portfolioData.last_updated =
        "Invalid Date (cached)" ∧
    samplePortfolioData.last_updated = "10:00:00 AM" ∧
    (loadCachedData (fun _ => "Invalid Date")
      (saveDataToCache samplePortfolioData [] [] [])
      (initialComponentState "t")).1.portfolioData.last_updated ≠
      samplePortfolioData.last_updated ++ " (cached)" := by
  refine ⟨rfl, rfl, ?_⟩
  decide

/-- C5 as amended: loading after saving returns the saved segment lists
unchanged and a snapshot whose every field matches the saved one except
`last_updated`, which becomes the host's re-rendering of the stored value
(`new Date(stored).toLocaleTimeString()`, the parameter `reformatTime`)
with " (cached)" appended; the save path stores the snapshot verbatim, so
the marker exists only on the read path. -/
theorem C5_cache_roundtrip (reformatTime : String → String) (s : PortfolioData)
    (a b c : List Holding) (st : ComponentState) :
    (loadCachedData reformatTime (saveDataToCache s a b c) st).1 =
      { portfolioData :=
          { s with last_updated := reformatTime s.last_updated ++ " (cached)" }
        spotHoldings := a, marginHoldings := b, futuresHoldings := c
        isLoading := st.isLoading, isRefreshing := st.isRefreshing, error := st.error } ∧
    (loadCachedData reformatTime (saveDataToCache s a b c) st).2 = true ∧
    (saveDataToCache s a b c).binance_portfolio_data = some s :=
  ⟨rfl, rfl, rfl⟩

/-! ### Symbol extraction (claim C4) -/

theorem takeWhile_underscore_append (a b : List Char) (ha : '_' ∉ a) :
    (a ++ '_' :: b).takeWhile (· != '_') = a := by
  induction a with
  | nil => simp [List.takeWhile_cons]
  | cons c a' ih =>
      have hc : c ≠ '_' := fun h => ha (h ▸ List.mem_cons_self c a')
      have ha' : '_' ∉ a' := fun h => ha (List.mem_cons_of_mem _ h)
      simp only [List.cons_append, List.takeWhile_cons, if_pos (by simp [hc] : (c != '_') = true)]
      rw [ih ha']

theorem takeWhile_underscore_all (a : List Char) (ha : '_' ∉ a) :
    a.takeWhile (· != '_') = a := by
  induction a with
  | nil => rfl
  | cons c a' ih =>
      have hc : c ≠ '_' := fun h => ha (h ▸ List.mem_cons_self c a')
      have ha' : '_' ∉ a' := fun h => ha (List.mem_cons_of_mem _ h)
      simp only [List.takeWhile_cons, if_pos (by simp [hc] : (c != '_') = true)]
      rw [ih ha']

theorem replaceFirst_no_occ : ∀ l : List Char,
    containsUSDT l = false → replaceFirstL l = l := by
  intro l
  induction l using replaceFirstL.induct with
  | case1 rest =>
      intro h
      rw [containsUSDT.eq_1] at h
      exact absurd h (by simp)
  | case2 c rest hno ih =>
      intro h
      rw [containsUSDT.eq_2 c rest hno] at h
      rw [replaceFirstL.eq_2 c rest hno, ih h]
  | case3 => intro _; rfl

theorem replaceFirst_insert : ∀ a b : List Char, containsUSDT a = false →
    replaceFirstL (a ++ 'U' :: 'S' :: 'D' :: 'T' :: b) = a ++ b := by
  intro a
  induction a using replaceFirstL.induct with
  | case1 rest =>
      intro b h
      rw [containsUSDT.eq_1] at h
      exact absurd h (by simp)
  | case2 c rest hno ih =>
      intro b h
      rw [containsUSDT.eq_2 c rest hno] at h
      have hcond : ∀ r1 : List Char, c = 'U' →
          rest ++ 'U' :: 'S' :: 'D' :: 'T' :: b = 'S' :: 'D' :: 'T' :: r1 → False := by
        intro r1 hcU heq
        rcases rest with _ | ⟨d1, rest1⟩
        · simp at heq
        · rcases rest1 with _ | ⟨d2, rest2⟩
          · simp at heq
          · rcases rest2 with _ | ⟨d3, rest3⟩
            · simp at heq
            · simp only [List.cons_append, List.cons.injEq] at heq
              obtain ⟨h1, h2, h3, _⟩ := heq
              exact hno rest3 hcU (by rw [h1, h2, h3])
      rw [List.cons_append, replaceFirstL.eq_2 c _ hcond, ih b h, List.cons_append]
  | case3 =>
      intro b _
      rw [List.nil_append, List.nil_append, replaceFirstL.eq_1]

/-- C4 counterexample: for the futures key `"USDTBTC_futures"`, whose
pre-underscore part `"USDTBTC"` does not end in `"USDT"`, the claim says the
symbol is left unchanged; the code removes the first occurrence of
`"USDT"` anywhere and yields `"BTC"`. -/
theorem C4_counterexample :
    keyAssetPart "USDTBTC_futures" = "USDTBTC" ∧
    ['U', 'S', 'D', 'T'].isSuffixOf "USDTBTC".toList = false ∧
    stripTrailingUSDT "USDTBTC".toList = "USDTBTC".toList ∧
    (futuresCandidate ("USDTBTC_futures", emptyFuturesRec)).symbol = "BTC" ∧
    (futuresCandidate ("USDTBTC_futures", emptyFuturesRec)).symbol ≠ "USDTBTC" := by
  refine ⟨?_, ?_, ?_, ?_, ?_⟩ <;> decide

/-- C4 as amended: the symbol used in aggregation is the substring of the
key before the first underscore; for futures the first occurrence of
`"USDT"` anywhere in that substring is additionally removed (a substring
with no occurrence is left unchanged, and only the leftmost occurrence is
removed). -/
theorem C4_symbol_extraction :
    (∀ (a tail : List Char) (r : SpotHoldingData), '_' ∉ a →
      (spotCandidate (⟨a ++ '_' :: tail⟩, r)).symbol = ⟨a⟩) ∧
    (∀ (l : List Char), containsUSDT l = false → replaceFirstL l = l) ∧
    (∀ (a b tail : List Char) (r : FuturesHoldingData), '_' ∉ a → '_' ∉ b →
      containsUSDT a = false →
      (futuresCandidate
        (⟨(a ++ 'U' :: 'S' :: 'D' :: 'T' :: b) ++ '_' :: tail⟩, r)).symbol = ⟨a ++ b⟩) ∧
    (∀ (l tail : List Char) (r : FuturesHoldingData), '_' ∉ l →
      containsUSDT l = false →
      (futuresCandidate (⟨l ++ '_' :: tail⟩, r)).symbol = ⟨l⟩) := by
  have husdt : ∀ c ∈ ['U', 'S', 'D', 'T'], c ≠ '_' := by decide
  refine ⟨?_, replaceFirst_no_occ, ?_, ?_⟩
  · intro a tail r ha
    show keyAssetPart ⟨a ++ '_' :: tail⟩ = _
    unfold keyAssetPart
    show ((a ++ '_' :: tail).takeWhile (· != '_')).asString = _
    rw [takeWhile_underscore_append a tail ha]
    rfl
  · intro a b tail r ha hb hno
    have hnou : '_' ∉ a ++ 'U' :: 'S' :: 'D' :: 'T' :: b := by
      intro hmem
      rcases List.mem_append.mp hmem with h | h
      · exact ha h
      · rcases h with _ | ⟨_, _ | ⟨_, _ | ⟨_, _ | ⟨_, h⟩⟩⟩⟩
        exact hb h
    show (replaceFirstL (keyAssetPart
      ⟨(a ++ 'U' :: 'S' :: 'D' :: 'T' :: b) ++ '_' :: tail⟩).toList).asString = _
    unfold keyAssetPart
    show (replaceFirstL (((a ++ 'U' :: 'S' :: 'D' :: 'T' :: b) ++ '_' :: tail).takeWhile
      (· != '_')).asString.toList).asString = _
    rw [takeWhile_underscore_append _ tail hnou]
    show (replaceFirstL (a ++ 'U' :: 'S' :: 'D' :: 'T' :: b)).asString = _
    rw [replaceFirst_insert a b hno]
    rfl
  · intro l tail r hl hno
    show (replaceFirstL (keyAssetPart ⟨l ++ '_' :: tail⟩).toList).asString = _
    unfold keyAssetPart
    show (replaceFirstL ((l ++ '_' :: tail).takeWhile (· != '_')).asString.toList).asString
      = _
    rw [takeWhile_underscore_append l tail hl]
    show (replaceFirstL l).asString = _
    rw [replaceFirst_no_occ l hno]
    rfl

/-- C4 witness: instantiating the amended rules at the keys
`"BTCUSDT_futures"` (trailing occurrence), `"USDTBTC_futures"` (leading
occurrence) and `"BTC_spot"`. -/
theorem C4_symbol_extraction_witness :
    ('_' ∉ ['B', 'T', 'C'] ∧ containsUSDT ['B', 'T', 'C'] = false ∧
      '_' ∉ ([] : List Char) ∧ containsUSDT ([] : List Char) = false) ∧
    (spotCandidate ("BTC_spot", mkSpotRec none none none none)).symbol = "BTC" ∧
    (futuresCandidate ("BTCUSDT_futures", emptyFuturesRec)).symbol = "BTC" ∧
    (futuresCandidate ("USDTBTC_futures", emptyFuturesRec)).symbol = "BTC" := by
  have hb : '_' ∉ ['B', 'T', 'C'] := by decide
  have hcb : containsUSDT ['B', 'T', 'C'] = false := by decide
  have hn : '_' ∉ ([] : List Char) := by decide
  have hcn : containsUSDT ([] : List Char) = false := by decide
  refine ⟨⟨hb, hcb, hn, hcn⟩, ?_, ?_, ?_⟩
  · have h := (C4_symbol_extraction).1 ['B', 'T', 'C'] "spot".toList
      (mkSpotRec none none none none) hb
    have he : ("BTC_spot" : String) = ⟨['B', 'T', 'C'] ++ '_' :: "spot".toList⟩ := by decide
    rw [he]
    exact h
  · have h := (C4_symbol_extraction).2.2.1 ['B', 'T', 'C'] [] "futures".toList
      emptyFuturesRec hb hn hcb
    have he : ("BTCUSDT_futures" : String) =
        ⟨(['B', 'T', 'C'] ++ 'U' :: 'S' :: 'D' :: 'T' :: []) ++ '_' :: "futures".toList⟩ := by
      decide
    rw [he]
    exact h
  · have h := (C4_symbol_extraction).2.2.1 [] ['B', 'T', 'C'] "futures".toList
      emptyFuturesRec hn hb hcn
    have he : ("USDTBTC_futures" : String) =
        ⟨(([] : List Char) ++ 'U' :: 'S' :: 'D' :: 'T' :: ['B', 'T', 'C']) ++
          '_' :: "futures".toList⟩ := by
      decide
    rw [he]
    exact h

/-! ### Number rendering (claim C9) -/

theorem digitChar_ne_dot (k : ℕ) : Nat.digitChar (k % 10) ≠ '.' := by
  have h : ∀ m, m < 10 → Nat.digitChar m ≠ '.' := by decide
  exact h _ (Nat.mod_lt _ (by norm_num))

theorem digitsAux_ne_dot : ∀ (fuel n : ℕ) (ds : List Char),
    (∀ c ∈ ds, c ≠ '.') → ∀ c ∈ digitsAux fuel n ds, c ≠ '.' := by
  intro fuel
  induction fuel with
  | zero => intro n ds hds c hc; exact hds c hc
  | succ fuel ih =>
      intro n ds hds c hc
      by_cases h0 : n / 10 = 0
      · have he : digitsAux (fuel + 1) n ds = Nat.digitChar (n % 10) :: ds := by
          simp [digitsAux, h0]
        rw [he] at hc
        rcases List.mem_cons.mp hc with hc | hc
        · rw [hc]; exact digitChar_ne_dot n
        · exact hds c hc
      · have he : digitsAux (fuel + 1) n ds =
            digitsAux fuel (n / 10) (Nat.digitChar (n % 10) :: ds) := by
          simp [digitsAux, h0]
        rw [he] at hc
        refine ih (n / 10) _ ?_ c hc
        intro x hx
        rcases List.mem_cons.mp hx with hx | hx
        · rw [hx]; exact digitChar_ne_dot n
        · exact hds x hx

theorem intChars_ne_dot (n : ℕ) : ∀ c ∈ intChars n, c ≠ '.' :=
  digitsAux_ne_dot (n + 1) n [] (by simp)

theorem groupRev_mem : ∀ (l : List Char) (c : Char), c ∈ groupRev l → c ∈ l ∨ c = ',' := by
  intro l
  induction l using groupRev.induct with
  | case1 a b c d rest ih =>
      intro x hx
      rw [groupRev.eq_1 a b c d rest] at hx
      rcases List.mem_cons.mp hx with hx | hx
      · exact Or.inl (by simp [hx])
      rcases List.mem_cons.mp hx with hx | hx
      · exact Or.inl (by simp [hx])
      rcases List.mem_cons.mp hx with hx | hx
      · exact Or.inl (by simp [hx])
      rcases List.mem_cons.mp hx with hx | hx
      · exact Or.inr hx
      rcases ih x hx with h | h
      · exact Or.inl (by simp [List.mem_cons.mp h])
      · exact Or.inr h
  | case2 l h =>
      intro x hx
      rw [groupRev.eq_2 l h] at hx
      exact Or.inl hx

theorem commaGroup_ne_dot (l : List Char) (hl : ∀ c ∈ l, c ≠ '.') :
    ∀ c ∈ commaGroup l, c ≠ '.' := by
  intro c hc
  unfold commaGroup at hc
  rw [List.mem_reverse] at hc
  rcases groupRev_mem _ c hc with h | h
  · exact hl c (List.mem_reverse.mp h)
  · rw [h]; decide

theorem padDigits_length : ∀ (d n : ℕ), (padDigits n d).length = d := by
  intro d
  induction d with
  | zero => intro n; rfl
  | succ d ih => intro n; simp [padDigits, ih]

theorem dropWhile_append_of_all (p : Char → Bool) : ∀ (l1 l2 : List Char),
    (∀ c ∈ l1, p c = true) → List.dropWhile p (l1 ++ l2) = List.dropWhile p l2 := by
  intro l1
  induction l1 with
  | nil => intro l2 _; rfl
  | cons c l1 ih =>
      intro l2 h
      rw [List.cons_append, List.dropWhile_cons, if_pos (h c (List.mem_cons_self _ _))]
      exact ih l2 fun x hx => h x (List.mem_cons_of_mem _ hx)

theorem fracDigitCount_fixed (pre : List Char) (hpre : ∀ c ∈ pre, c ≠ '.')
    (q : ℚ) (d : ℕ) : fracDigitCount ⟨pre ++ fixedChars q d⟩ = d := by
  unfold fracDigitCount fixedChars
  show ((List.dropWhile (fun c => c != '.')
    (pre ++ (commaGroup (intChars (scaledRound q d / 10 ^ d)) ++
      '.' :: padDigits (scaledRound q d % 10 ^ d) d))).drop 1).length = d
  rw [← List.append_assoc]
  rw [dropWhile_append_of_all _ (pre ++ commaGroup (intChars (scaledRound q d / 10 ^ d)))
    ('.' :: padDigits (scaledRound q d % 10 ^ d) d) ?hall]
  · rw [List.dropWhile_cons, if_neg (by decide)]
    simp [padDigits_length]
  case hall =>
    intro c hc
    rcases List.mem_append.mp hc with h | h
    · simpa using hpre c h
    · simpa using commaGroup_ne_dot _ (intChars_ne_dot _) c h

/-- C9 counterexample: the quantity formatter compares the signed value
with 0.1, so `formatNumber(-5)` — whose magnitude is well above 0.1, which
by the claim should render with two decimals — renders with six
(`"-5.000000"`); and `formatDate` renders an infinite timestamp as
`"Invalid Date"`, not as the empty-string display default. -/
theorem C9_counterexample :
    formatNumber (.num (-5)) 6 = "-5.000000" ∧
    (1 / 10 : ℚ) ≤ |(-5 : ℚ)| ∧
    fracDigitCount (formatNumber (.num (-5)) 6) = 6 ∧
    fracDigitCount (formatNumber (.num (-5)) 6) ≠ 2 ∧
    formatDate (fun _ => "") (some .inf) = "Invalid Date" ∧
    formatDate (fun _ => "") (some .inf) ≠ "" := by
  have h : formatNumber (.num (-5)) 6 = "-5.000000" := by
    norm_num [formatNumber, JSNum.isFinite, qOf, jLtq, fixedChars, scaledRound, jabs,
      intChars, digitsAux, commaGroup, groupRev, padDigits]
    decide
  refine ⟨h, by norm_num, ?_, ?_, rfl, by decide⟩
  · rw [h]; decide
  · rw [h]; decide

/-- C9 as amended: the quantity formatter renders with two decimals when
`value ≥ 0.1` and six when `value < 0.1` — the comparison is signed, so
every negative value gets six decimals; currency, percentage and quantity
map non-finite input to `"$0.00"`, `"-"` (page variant `"0.00%"`) and
`"0"`; the date formatter maps an absent, zero or `NaN` timestamp to the
empty string, while an infinite timestamp renders as `"Invalid Date"`. -/
theorem C9_formatters (render : ℚ → String) :
    (∀ q : ℚ, fracDigitCount (formatNumber (.num q) 6) = if q < 1 / 10 then 6 else 2) ∧
    formatNumber .nan 6 = "0" ∧ formatNumber .inf 6 = "0" ∧ formatNumber .ninf 6 = "0" ∧
    formatCurrency .nan = "$0.00" ∧ formatCurrency .inf = "$0.00" ∧
    formatCurrency .ninf = "$0.00" ∧
    formatPercentage none = "-" ∧ formatPercentage (some .nan) = "-" ∧
    formatPercentage (some .inf) = "-" ∧ formatPercentage (some .ninf) = "-" ∧
    formatPercentagePage .nan = "0.00%" ∧
    formatDate render none = "" ∧
    formatDate render (some (.num 0)) = "" ∧
    formatDate render (some .nan) = "" ∧
    formatDate render (some .inf) = "Invalid Date" ∧
    formatDate render (some .ninf) = "Invalid Date" := by
  refine ⟨?_, rfl, rfl, rfl, rfl, rfl, rfl, rfl, rfl, rfl, rfl, rfl, rfl, ?_, ?_, ?_, ?_⟩
  · intro q
    have hpre : ∀ c ∈ (if qOf (.num q) < 0 then ['-'] else []), c ≠ '.' := by
      split
      · intro c hc
        rcases List.mem_singleton.mp hc with rfl
        decide
      · intro c hc
        simp at hc
    show fracDigitCount ⟨(if qOf (.num q) < 0 then ['-'] else []) ++
      fixedChars (qOf (.num q)) (if jLtq (.num q) (1 / 10) then 6 else 2)⟩ = _
    by_cases hq : q < 1 / 10
    · rw [if_pos hq]
      have hjl : jLtq (JSNum.num q) (1 / 10) = true := decide_eq_true hq
      rw [if_pos hjl]
      exact fracDigitCount_fixed _ hpre _ 6
    · rw [if_neg hq]
      have hjl : jLtq (JSNum.num q) (1 / 10) = false := decide_eq_false hq
      rw [if_neg (show ¬ jLtq (JSNum.num q) (1 / 10) = true by
        intro hcon
        rw [hcon] at hjl
        exact Bool.noConfusion hjl)]
      exact fracDigitCount_fixed _ hpre _ 2
  · simp [formatDate]
  · simp [formatDate]
  · simp [formatDate]
  · simp [formatDate]

end FinPilot
